import Mathlib

/-!
# Pipeline-run engine of kubespace (`pkg/model/manager/pipeline/pipeline_run.go`)

A shallow embedding of the run / stage / job ledger: the records, the
relational store the manager talks to, and the manager's operations
(`GetStageRunStatus`, `CreatePipelineRun`, `StagesRun`,
`UpdatePipelineStageRun`, `GetEnvBeforeStageRun`), followed by the properties
established about them.

Conventions of the embedding
* Go `uint` fields are `Nat`; the only arithmetic on them is
  `BuildNumber + 1`, taken modulo `uintSize` (64-bit `uint`).
* Go `string` statuses are `String`; the zero value is `""`.
* A Go `map[string]interface{}` is a list of bindings, read with
  `mapGet` (the binding written last wins) and written with `mapSet`.
  A map field that the code writes into (`Env` of a run and of a stage) is a
  `GoMapRef`: `none` is the nil map, which reads as the empty map and cannot
  be written. A map field that the code only reads is a `GoMap`, a nil map
  being the empty one.
* A row holds a map as the store reads it back; `types.Map` is not part of
  the sources, and the model reads back a map stored as nil as the nil map.
* A panic ends a call without a result; the model reports it as the error
  `ErrNilMapWrite`.
* A nil slice is `none`, a non-nil slice is `some _` where the code tests
  for nil.
* A database table is the list of its rows; `Last` orders them by primary
  key.
-/

namespace Kubespace

/-! ## Status constants -/

/-- Modelled from the spec: the constant `types.PipelineStatusWait`, whose
declaration is not part of the sources; the spec gives the persisted string. -/
def PipelineStatusWait : String := "Wait"

/-- Modelled from the spec: the constant `types.PipelineStatusDoing`. -/
def PipelineStatusDoing : String := "Doing"

/-- Modelled from the spec: the constant `types.PipelineStatusOK`. -/
def PipelineStatusOK : String := "OK"

/-- Modelled from the spec: the constant `types.PipelineStatusError`. -/
def PipelineStatusError : String := "Error"

/-- Modelled from the spec: the constant `types.PipelineStatusPause`. -/
def PipelineStatusPause : String := "Pause"

/-! ## Records -/

/-- A value held in a `map[string]interface{}`: the engine itself stores a
build number (`uint`) and an operator name (`string`). -/
inductive Value where
  | num (n : Nat)
  | str (s : String)
  deriving DecidableEq, Repr

/-- A Go map with string keys, as the list of its bindings. -/
abbrev GoMap := List (String × Value)

/-- A map variable: `none` is the nil map, the zero value of a map field. -/
abbrev GoMapRef := Option GoMap

/-- Row of `types.PipelineRunJob`. -/
structure PipelineRunJob where
  ID : Nat
  StageRunId : Nat
  Status : String
  Env : GoMap
  Params : GoMap
  deriving DecidableEq, Repr

/-- Row of `types.PipelineRunStage`; `Jobs` is filled in by the manager and
is not a column of the stage table. -/
structure PipelineRunStage where
  ID : Nat
  PipelineRunId : Nat
  PrevStageRunId : Nat
  Status : String
  Env : GoMapRef
  CustomParams : GoMap
  Jobs : List PipelineRunJob
  UpdateTime : Nat
  deriving DecidableEq, Repr

/-- Row of `types.PipelineRun`. -/
structure PipelineRun where
  ID : Nat
  PipelineId : Nat
  BuildNumber : Nat
  Status : String
  Env : GoMapRef
  Operator : String
  UpdateTime : Nat
  deriving DecidableEq, Repr

/-! ## Status derivation -/

/-- Result of running the `for _, jobRun := range stageRun.Jobs` loop of
`GetStageRunStatus`: the function returned from inside the loop, or the loop
ran to its end with the local `status`. -/
inductive LoopExit where
  | returned (value : String)
  | finished (status : String)
  deriving DecidableEq, Repr

/-- The loop of `GetStageRunStatus` over the jobs, started with the given
value of the local `status`. -/
def statusLoop : List PipelineRunJob → String → LoopExit
  | [], status => .finished status
  | jobRun :: rest, status =>
    if jobRun.Status = PipelineStatusDoing then
      .returned PipelineStatusDoing
    else if jobRun.Status = PipelineStatusError then
      statusLoop rest PipelineStatusError
    else if jobRun.Status = PipelineStatusOK ∧ status ≠ PipelineStatusError then
      statusLoop rest PipelineStatusOK
    else if jobRun.Status = PipelineStatusWait ∧ status = PipelineStatusOK then
      statusLoop rest PipelineStatusDoing
    else
      statusLoop rest status

/-- `GetStageRunStatus`: the status of a stage from the statuses of its jobs. -/
def GetStageRunStatus (stageRun : PipelineRunStage) : String :=
  match statusLoop stageRun.Jobs "" with
  | .returned value => value
  | .finished status => if status = "" then stageRun.Status else status

/-- A job with the given status and no other content. -/
def jobWith (status : String) : PipelineRunJob :=
  { ID := 0, StageRunId := 0, Status := status, Env := [], Params := [] }

/-- A stage with the given stored status and jobs of the given statuses. -/
def stageWith (stored : String) (statuses : List String) : PipelineRunStage :=
  { ID := 0, PipelineRunId := 0, PrevStageRunId := 0, Status := stored, Env := some [],
    CustomParams := [], Jobs := statuses.map jobWith, UpdateTime := 0 }

/-! ## Maps -/

/-- Read `m[k]`: the binding for `k` written last, if any. -/
def mapGet : GoMap → String → Option Value
  | [], _ => none
  | (k', v) :: m, k =>
    match mapGet m k with
    | some w => some w
    | none => if k' = k then some v else none

/-- Write `m[k] = v`. -/
def mapSet (m : GoMap) (k : String) (v : Value) : GoMap :=
  m.filter (fun kv => kv.1 ≠ k) ++ [(k, v)]

/-- The loop `for k, v := range src { dst[k] = v }`. -/
def mapAssignAll (dst src : GoMap) : GoMap :=
  src.foldl (fun m kv => mapSet m kv.1 kv.2) dst

/-- The bindings a map variable reads as: none for the nil map. -/
def mapRead (m : GoMapRef) : GoMap := m.getD []

/-- The text of the panic of a write into a nil map. -/
def ErrNilMapWrite : String := "panic: assignment to entry in nil map"

/-- The loop `for k, v := range src { envs[k] = v }` on a map variable: with
nothing to assign the variable is left as it is, and the first assignment
into a nil map panics. -/
def assignParams (envs : GoMapRef) (src : GoMap) : Except String GoMapRef :=
  match src, envs with
  | [], _ => .ok envs
  | _ :: _, none => .error ErrNilMapWrite
  | _ :: _, some m => .ok (some (mapAssignAll m src))

/-- The number of values of a Go `uint` (64 bits). -/
def uintSize : Nat := 2 ^ 64

/-- Modelled from the spec: `utils.MergeMap`, whose source file is not part of
the sources; a left-fold merge in which the keys of the later map overwrite
those of the earlier one. -/
def MergeMap (acc m : GoMap) : GoMap := mapAssignAll acc m

/-- Modelled from the spec: `utils.MergeReplaceMap`, whose source file is not
part of the sources; starts from the first map and overwrites it with the
second on key collision. -/
def MergeReplaceMap (src rep : GoMap) : GoMap := mapAssignAll src rep

/-- Modelled from the spec: the reserved environment key
`types.PipelineEnvPipelineBuildNumber`. -/
def PipelineEnvPipelineBuildNumber : String := "PIPELINE_BUILD_NUMBER"

/-- Modelled from the spec: the reserved environment key
`types.PipelineEnvPipelineTriggerUser`. -/
def PipelineEnvPipelineTriggerUser : String := "PIPELINE_TRIGGER_USER"

/-! ## The store

Modelled from the spec (section 4.1): the relational store behind `p.DB` is an
external collaborator. A table is the list of its rows; `Create` keeps a
non-zero primary key of the record, refusing one the table already holds, and
lets the store assign the next key to a record with a zero key; `Save` writes
a row under its own key; `Last` returns the matching row with the greatest
key, `First` is used with a condition on the key only and returns the first
row that has it; a lookup that matches no row reports `record not found`.
Every operation that runs on the transaction handle `tx` takes effect only
when the transaction function returns no error. -/

/-- The three tables the manager reads and writes. -/
structure DB where
  runs : List PipelineRun
  stages : List PipelineRunStage
  jobs : List PipelineRunJob
  deriving DecidableEq, Repr

/-- A store with no rows. -/
def emptyDB : DB := { runs := [], stages := [], jobs := [] }

/-- The error text of `gorm.ErrRecordNotFound`. -/
def ErrRecordNotFound : String := "record not found"

/-- The next auto-increment key of a table with the given keys. -/
def nextKey (keys : List Nat) : Nat := keys.foldr max 0 + 1

/-- `First`, which the manager uses with a condition on the primary key only:
the first row of the table that matches. -/
def dbFirst {α : Type} (p : α → Bool) (rows : List α) : Option α := rows.find? p

/-- One step of `Last`: keep the row with the greater key, the later row
among rows with the same key. -/
def laterKey {α : Type} (key : α → Nat) (best : Option α) (r : α) : Option α :=
  match best with
  | none => some r
  | some b => if key b ≤ key r then some r else some b

/-- `Last`: the row with the greatest primary key among those matching the
condition (`ORDER BY id DESC LIMIT 1`). -/
def dbLast {α : Type} (key : α → Nat) (p : α → Bool) (rows : List α) : Option α :=
  (rows.filter p).foldl (laterKey key) none

/-- `Create` of a record with a zero key: the store assigns the next key and
appends the row; the record comes back with its key filled in. -/
def dbCreateAuto {α : Type} (key : α → Nat) (setKey : Nat → α → α) (row : α)
    (rows : List α) : List α × α :=
  let row1 := setKey (nextKey (rows.map key)) row
  (rows ++ [row1], row1)

/-- The error of an insert under a primary key that the table holds. -/
def ErrDuplicateKey : String := "duplicate entry for key PRIMARY"

/-- `Create`: a record with a zero key gets the next key from the store; a
record with a non-zero key is inserted under that key, which the store
refuses when a row has it. -/
def dbCreate {α : Type} (key : α → Nat) (setKey : Nat → α → α) (row : α)
    (rows : List α) : Except String (List α × α) :=
  if key row = 0 then .ok (dbCreateAuto key setKey row rows)
  else if rows.any (fun r => decide (key r = key row)) then .error ErrDuplicateKey
  else .ok (rows ++ [row], row)

/-- Insert a row with a key of the caller before the first row with a greater
key. -/
def dbInsert {α : Type} (key : α → Nat) (row : α) : List α → List α
  | [] => [row]
  | r :: rs => if key row < key r then row :: r :: rs else r :: dbInsert key row rs

/-- `Save`: a record with a zero key is created; otherwise the row that has
the key is overwritten, and inserted when the table has no such row. -/
def dbSave {α : Type} (key : α → Nat) (setKey : Nat → α → α) (row : α)
    (rows : List α) : List α × α :=
  if key row = 0 then dbCreateAuto key setKey row rows
  else if rows.any (fun r => decide (key r = key row)) then
    (rows.map (fun r => if key r = key row then row else r), row)
  else (dbInsert key row rows, row)

/-- Write the key of a run. -/
def PipelineRun.withID (k : Nat) (r : PipelineRun) : PipelineRun := { r with ID := k }

/-- Write the key of a stage. -/
def PipelineRunStage.withID (k : Nat) (s : PipelineRunStage) : PipelineRunStage :=
  { s with ID := k }

/-- Write the key of a job. -/
def PipelineRunJob.withID (k : Nat) (j : PipelineRunJob) : PipelineRunJob :=
  { j with ID := k }

/-- The columns of a stage: the record without its in-memory `Jobs`. -/
def PipelineRunStage.row (s : PipelineRunStage) : PipelineRunStage := { s with Jobs := [] }

/-! ## CreatePipelineRun -/

/-- The inner loop of `CreatePipelineRun` over the jobs of one stage: returns
the job table and the job records as the loop leaves them, or the error of
the `Create` that failed. -/
def createJobs (stageRunId : Nat) :
    List PipelineRunJob → List PipelineRunJob →
      Except String (List PipelineRunJob × List PipelineRunJob)
  | tbl, [] => .ok (tbl, [])
  | tbl, jobRun :: rest =>
    match dbCreate PipelineRunJob.ID PipelineRunJob.withID
        { jobRun with StageRunId := stageRunId } tbl with
    | .error err => .error err
    | .ok created =>
      match createJobs stageRunId created.1 rest with
      | .error err => .error err
      | .ok done => .ok (done.1, created.2 :: done.2)

/-- The outer loop of `CreatePipelineRun` over the stages, started with the
local `prevStageRunId`: returns the store and the stage records as the loop
leaves them, or the error of the `Create` that failed. -/
def createStages (pipelineRunId : Nat) :
    DB → Nat → List PipelineRunStage → Except String (DB × List PipelineRunStage)
  | db, _, [] => .ok (db, [])
  | db, prevStageRunId, stageRun :: rest =>
    match dbCreate PipelineRunStage.ID PipelineRunStage.withID
        ({ stageRun with PipelineRunId := pipelineRunId,
                         PrevStageRunId := prevStageRunId } : PipelineRunStage).row
        db.stages with
    | .error err => .error err
    | .ok created =>
      match createJobs created.2.ID db.jobs stageRun.Jobs with
      | .error err => .error err
      | .ok jobs =>
        match createStages pipelineRunId
            { db with stages := created.1, jobs := jobs.1 } created.2.ID rest with
        | .error err => .error err
        | .ok done =>
          .ok (done.1,
               { stageRun with
                 ID := created.2.ID, PipelineRunId := pipelineRunId,
                 PrevStageRunId := prevStageRunId, Jobs := jobs.2 } :: done.2)

/-- The build number `CreatePipelineRun` gives to a new run of a pipeline:
that of the last run of the pipeline, 0 when it has none, plus 1. -/
def nextBuildNumber (db : DB) (pipelineId : Nat) : Nat :=
  ((match dbLast PipelineRun.ID (fun r => decide (r.PipelineId = pipelineId)) db.runs with
    | some lastPipelineRun => lastPipelineRun.BuildNumber
    | none => 0) + 1) % uintSize

/-- `CreatePipelineRun`: allocate the build number, create the run, then its
stages and their jobs, in one transaction. The two writes into
`pipelineRun.Env` panic when that map is nil. -/
def CreatePipelineRun (db : DB) (pipelineRun : PipelineRun)
    (stagesRun : List PipelineRunStage) :
    Except String (DB × PipelineRun × List PipelineRunStage) :=
  let buildNum := nextBuildNumber db pipelineRun.PipelineId
  match pipelineRun.Env with
  | none => .error ErrNilMapWrite
  | some env =>
    let env1 := mapSet env PipelineEnvPipelineBuildNumber (.num buildNum)
    let env2 := mapSet env1 PipelineEnvPipelineTriggerUser (.str pipelineRun.Operator)
    match dbCreate PipelineRun.ID PipelineRun.withID
        { pipelineRun with BuildNumber := buildNum, Env := some env2 } db.runs with
    | .error err => .error err
    | .ok created =>
      match createStages created.2.ID { db with runs := created.1 } 0 stagesRun with
      | .error err => .error err
      | .ok done => .ok (done.1, created.2, done.2)

/-! ## StagesRun -/

/-- `GetStageRunJobs`: the jobs of a stage. -/
def GetStageRunJobs (db : DB) (stageRunId : Nat) : List PipelineRunJob :=
  db.jobs.filter (fun j => decide (j.StageRunId = stageRunId))

/-- One pass of the inner `for i, s := range stagesRun` loop of `StagesRun`:
the first stage whose `PrevStageRunId` is `prevStageId`. -/
def seqScan (stagesRun : List PipelineRunStage) (prevStageId : Nat) :
    Option PipelineRunStage :=
  stagesRun.find? (fun s => decide (s.PrevStageRunId = prevStageId))

/-- The outer `for { ... }` loop of `StagesRun`, one unit of fuel per scan of
the stages; `none` when the loop has not ended within the fuel. -/
def seqLoop : Nat → List PipelineRunStage → Nat → List PipelineRunStage →
    Option (List PipelineRunStage)
  | 0, _, _, _ => none
  | fuel + 1, stagesRun, prevStageId, seqStages =>
    match seqScan stagesRun prevStageId with
    | some s => seqLoop fuel stagesRun s.ID (seqStages ++ [s])
    | none => some seqStages

/-- The stages of a run as `StagesRun` loads them, each with its jobs. -/
def loadStages (db : DB) (pipelineRunId : Nat) : List PipelineRunStage :=
  (db.stages.filter (fun s => decide (s.PipelineRunId = pipelineRunId))).map
    (fun s => { s with Jobs := GetStageRunJobs db s.ID })

/-- `StagesRun`: the stages of a run in chain order. -/
def StagesRun (fuel : Nat) (db : DB) (pipelineRunId : Nat) :
    Option (List PipelineRunStage) :=
  seqLoop fuel (loadStages db pipelineRunId) 0 []

/-! ## UpdatePipelineStageRun -/

/-- `GetStageRunEnv`: the environments of the jobs merged over the stage's.
The merged map is a non-nil map, so the caller's `if stageEnvs != nil` holds. -/
def GetStageRunEnv (stageRun : PipelineRunStage) : GoMap :=
  MergeReplaceMap (mapRead stageRun.Env)
    (stageRun.Jobs.foldl (fun envs jobRun => MergeMap envs jobRun.Env) [])

/-- The request of `UpdatePipelineStageRun`. -/
structure UpdateStageObj where
  StageRunId : Nat
  StageRunStatus : String
  StageRunJobs : Option (List PipelineRunJob)
  deriving DecidableEq, Repr

/-- The loop `for _, runJob := range updateStageObj.StageRunJobs { tx.Save(runJob) }`. -/
def saveJobs (tbl : List PipelineRunJob) (runJobs : List PipelineRunJob) : List PipelineRunJob :=
  runJobs.foldl (fun t runJob => (dbSave PipelineRunJob.ID PipelineRunJob.withID runJob t).1) tbl

/-- The records of the loop `for _, runJob := range updateStageObj.StageRunJobs
{ tx.Save(runJob) }` as the loop leaves them: `Save` writes the key the store
has assigned into a record it creates. -/
def saveJobsRecords : List PipelineRunJob → List PipelineRunJob → List PipelineRunJob
  | _, [] => []
  | tbl, runJob :: rest =>
    (dbSave PipelineRunJob.ID PipelineRunJob.withID runJob tbl).2
      :: saveJobsRecords (dbSave PipelineRunJob.ID PipelineRunJob.withID runJob tbl).1 rest

/-- The request object after a call of `UpdatePipelineStageRun` on the store
`db`: the job records are the caller's, and `Save` has written the assigned
key into each record it created. -/
def requestAfter (db : DB) (updateStageObj : UpdateStageObj) : UpdateStageObj :=
  { updateStageObj with
    StageRunJobs := updateStageObj.StageRunJobs.map (saveJobsRecords db.jobs) }

/-- The record with key `k` that a list of records holds last, if any. -/
def lastWithKey : List PipelineRunJob → Nat → Option PipelineRunJob
  | [], _ => none
  | j :: rest, k =>
    match lastWithKey rest k with
    | some j1 => some j1
    | none => if j.ID = k then some j else none

/-- The `if ... else if ...` chain of `UpdatePipelineStageRun` that writes
`pipelineRun.Status` from `stageRun.Status`. -/
def runStatusFor (stageStatus runStatus : String) : String :=
  if stageStatus = PipelineStatusError then PipelineStatusError
  else if stageStatus = PipelineStatusDoing then PipelineStatusDoing
  else if stageStatus = PipelineStatusOK then PipelineStatusDoing
  else if stageStatus = PipelineStatusPause then PipelineStatusPause
  else runStatus

/-- Step 2 of the transaction of `UpdatePipelineStageRun`: the job table after
`if updateStageObj.StageRunJobs != nil { ... tx.Save(runJob) ... }`. -/
def savedJobTable (db : DB) (updateStageObj : UpdateStageObj) : List PipelineRunJob :=
  match updateStageObj.StageRunJobs with
  | some runJobs => saveJobs db.jobs runJobs
  | none => db.jobs

/-- Step 3 of the transaction of `UpdatePipelineStageRun`: the stage record
after `if updateStageObj.StageRunStatus != "" { ... } else if
updateStageObj.StageRunJobs != nil { ... }`, where `jobs` is the job table the
reload reads. -/
def resolveStageRun (jobs : List PipelineRunJob) (updateStageObj : UpdateStageObj)
    (stageRun : PipelineRunStage) : PipelineRunStage :=
  if updateStageObj.StageRunStatus ≠ "" then
    { stageRun with Status := updateStageObj.StageRunStatus }
  else if updateStageObj.StageRunJobs.isSome then
    let withJobs : PipelineRunStage :=
      { stageRun with
        Jobs := jobs.filter (fun j => decide (j.StageRunId = updateStageObj.StageRunId)) }
    let withStatus : PipelineRunStage :=
      { withJobs with Status := GetStageRunStatus withJobs }
    { withStatus with Env := some (GetStageRunEnv withStatus) }
  else stageRun

/-- The transaction function of `UpdatePipelineStageRun`, at time `now`. -/
def updateStageRunTx (now : Nat) (db : DB) (updateStageObj : UpdateStageObj) :
    Except String (DB × PipelineRun × PipelineRunStage) :=
  match dbFirst (fun s => decide (s.ID = updateStageObj.StageRunId)) db.stages with
  | none => .error ErrRecordNotFound
  | some stageRun0 =>
    let jobs1 := savedJobTable db updateStageObj
    let stageRun1 := resolveStageRun jobs1 updateStageObj stageRun0
    match dbFirst (fun r => decide (r.ID = stageRun1.PipelineRunId)) db.runs with
    | none => .error ErrRecordNotFound
    | some pipelineRun0 =>
      let pipelineRun1 : PipelineRun :=
        { pipelineRun0 with
          Status := runStatusFor stageRun1.Status pipelineRun0.Status, UpdateTime := now }
      let stageRun2 : PipelineRunStage := { stageRun1 with UpdateTime := now }
      let savedStage := dbSave PipelineRunStage.ID PipelineRunStage.withID stageRun2.row db.stages
      let savedRun := dbSave PipelineRun.ID PipelineRun.withID pipelineRun1 db.runs
      .ok ({ runs := savedRun.1, stages := savedStage.1, jobs := jobs1 },
           savedRun.2, { stageRun2 with ID := savedStage.2.ID })

/-- The snapshot handed to the watchers after a mutation. -/
structure Event where
  runLabel : Nat
  pipelineLabel : Nat
  pipeline_run : PipelineRun
  stages_run : List PipelineRunStage
  deriving DecidableEq, Repr

/-- `StreamPipelineRun`: build the snapshot of a run; `none` when the chain
reconstruction of `StagesRun` has not ended within the fuel. -/
def StreamPipelineRun (fuel : Nat) (db : DB) (pipelineRun : PipelineRun) : Option Event :=
  match StagesRun fuel db pipelineRun.ID with
  | none => none
  | some stageRuns =>
    some { runLabel := pipelineRun.ID, pipelineLabel := pipelineRun.PipelineId,
           pipeline_run := pipelineRun, stages_run := stageRuns }

/-- What a successful `UpdatePipelineStageRun` leaves and returns. -/
structure UpdateResult where
  db : DB
  pipelineRun : PipelineRun
  stageRun : PipelineRunStage
  event : Event
  deriving DecidableEq, Repr

/-- `UpdatePipelineStageRun`: `none` when the call has not returned within
the fuel, otherwise the error or the result of the call. -/
def UpdatePipelineStageRun (fuel now : Nat) (db : DB) (updateStageObj : Option UpdateStageObj) :
    Option (Except String UpdateResult) :=
  match updateStageObj with
  | none => some (.error "parameter is empty")
  | some obj =>
    if obj.StageRunId = 0 then some (.error "parameter stageRunId is empty")
    else
      match updateStageRunTx now db obj with
      | .error err => some (.error err)
      | .ok (db1, pipelineRun, stageRun) =>
        match StreamPipelineRun fuel db1 pipelineRun with
        | none => none
        | some event =>
          some (.ok { db := db1, pipelineRun := pipelineRun, stageRun := stageRun,
                      event := event })

/-! ## GetEnvBeforeStageRun -/

/-- The lookup of `GetEnvBeforeStageRun`: the `Env` of the owning run for a
first stage, otherwise that of the stage of the same run whose id is
`PrevStageRunId`. -/
def loadBaseEnv (db : DB) (stageRun : PipelineRunStage) : Except String GoMapRef :=
  if stageRun.PrevStageRunId = 0 then
    match dbLast PipelineRun.ID (fun r => decide (r.ID = stageRun.PipelineRunId)) db.runs with
    | none => .error ErrRecordNotFound
    | some pipelineRun => .ok pipelineRun.Env
  else
    match dbLast PipelineRunStage.ID (fun s => decide (s.ID = stageRun.PrevStageRunId)
        && decide (s.PipelineRunId = stageRun.PipelineRunId)) db.stages with
    | none => .error ErrRecordNotFound
    | some prevStageRun => .ok prevStageRun.Env

/-- `GetEnvBeforeStageRun`: the environment a stage starts from. The loaded
`Env` itself is the map the loop over `CustomParams` writes into. -/
def GetEnvBeforeStageRun (db : DB) (stageRun : PipelineRunStage) : Except String GoMapRef :=
  match loadBaseEnv db stageRun with
  | .error err => .error err
  | .ok envs => assignParams envs stageRun.CustomParams

/-! ## UpdateStageJobRunParams -/

/-- The error of a `Save` that the store refuses. -/
def ErrSaveFailed : String := "save failed"

/-- `Select(column).Save(record)`: a record with a zero key is created with
the selected column only, on top of the zero row; otherwise the selected
column, copied by `write`, is overwritten in the row that has the key. -/
def dbSaveColumn {α : Type} (key : α → Nat) (setKey : Nat → α → α) (zero : α)
    (write : α → α → α) (row : α) (rows : List α) : List α × α :=
  if key row = 0 then
    (rows ++ [write (setKey (nextKey (rows.map key)) zero) row],
     setKey (nextKey (rows.map key)) row)
  else (rows.map (fun r => if key r = key row then write r row else r), row)

/-- The zero value of a stage record. -/
def PipelineRunStage.zero : PipelineRunStage :=
  { ID := 0, PipelineRunId := 0, PrevStageRunId := 0, Status := "", Env := none,
    CustomParams := [], Jobs := [], UpdateTime := 0 }

/-- The zero value of a job record. -/
def PipelineRunJob.zero : PipelineRunJob :=
  { ID := 0, StageRunId := 0, Status := "", Env := [], Params := [] }

/-- The loop `for i, _ := range jobRuns` of `UpdateStageJobRunParams`, the
saves of the call being numbered from `n` on and `saveFails` telling which of
them the store refuses: returns the job table when the loop is left and the
error it is left with. Every save is issued on `p.DB`, so the table keeps the
writes made before a refused save. -/
def saveJobParams (saveFails : Nat → Bool) :
    Nat → List PipelineRunJob → List PipelineRunJob → List PipelineRunJob × Option String
  | _, tbl, [] => (tbl, none)
  | n, tbl, jobRun :: rest =>
    if saveFails n then (tbl, some ErrSaveFailed)
    else
      saveJobParams saveFails (n + 1)
        (dbSaveColumn PipelineRunJob.ID PipelineRunJob.withID PipelineRunJob.zero
          (fun r new => { r with Params := new.Params }) jobRun tbl).1 rest

/-- `UpdateStageJobRunParams`: returns the store after the call and the error
of the call. The function handed to `p.DB.Transaction` issues each `Save` on
`p.DB` and none on its argument `tx`: the store commits such a write when it
returns, and the rollback that follows an error finds no write of `tx` to
undo. Save number 0 is that of the stage, save number `i + 1` that of
`jobRuns[i]`; `saveFails` tells which saves the store refuses. -/
def UpdateStageJobRunParams (saveFails : Nat → Bool) (db : DB) (stageRun : PipelineRunStage)
    (jobRuns : List PipelineRunJob) : DB × Option String :=
  if saveFails 0 then (db, some ErrSaveFailed)
  else
    let savedStage := dbSaveColumn PipelineRunStage.ID PipelineRunStage.withID
      PipelineRunStage.zero (fun r new => { r with CustomParams := new.CustomParams })
      stageRun db.stages
    let saved := saveJobParams saveFails 1 db.jobs jobRuns
    ({ db with stages := savedStage.1, jobs := saved.1 }, saved.2)

/-! ## Sequences of calls -/

/-- A call of the manager that changes the store. -/
inductive Call where
  | create (pipelineRun : PipelineRun) (stagesRun : List PipelineRunStage)
  | update (fuel now : Nat) (updateStageObj : Option UpdateStageObj)

/-- The store together with the runs returned by the `CreatePipelineRun`
calls so far, in the order of the calls. -/
structure History where
  db : DB
  created : List PipelineRun

/-- Run one call; `none` unless the call returns without error. -/
def Call.exec (h : History) : Call → Option History
  | .create pipelineRun stagesRun =>
    match CreatePipelineRun h.db pipelineRun stagesRun with
    | .ok (db1, run, _) => some { db := db1, created := h.created ++ [run] }
    | .error _ => none
  | .update fuel now updateStageObj =>
    match UpdatePipelineStageRun fuel now h.db updateStageObj with
    | some (.ok res) => some { db := res.db, created := h.created }
    | _ => none

/-- Run the calls one at a time; `none` unless every call succeeds. -/
def execCalls : History → List Call → Option History
  | h, [] => some h
  | h, c :: cs =>
    match c.exec h with
    | some h1 => execCalls h1 cs
    | none => none

/-- The build numbers of the runs of one pipeline, in list order. -/
def buildNumbersOf (pipelineId : Nat) (runs : List PipelineRun) : List Nat :=
  (runs.filter (fun r => decide (r.PipelineId = pipelineId))).map PipelineRun.BuildNumber

/-- The pipelines of the `CreatePipelineRun` calls of a sequence, in order. -/
def createdPipelines : List Call → List Nat
  | [] => []
  | .create pipelineRun _ :: cs => pipelineRun.PipelineId :: createdPipelines cs
  | .update _ _ _ :: cs => createdPipelines cs

/-- The history before the first call: a store with no rows. -/
def emptyHistory : History := { db := emptyDB, created := [] }

/-- The call passes no run record with a key of the caller: the run of a
`CreatePipelineRun` call has `ID` 0. -/
def Call.keylessRun : Call → Bool
  | .create pipelineRun _ => decide (pipelineRun.ID = 0)
  | .update _ _ _ => true

/-- The invariant of the run table that sequences of calls with keyless runs
keep: keys are non-zero and increase along the table, the rows agree with the
created runs on pipeline and build number, and the build numbers of every
pipeline count up from 1 within the range of `uint`. -/
def RunsInv (h : History) : Prop :=
  (h.db.runs.map PipelineRun.ID).Pairwise (fun a b => a < b)
  ∧ (∀ r ∈ h.db.runs, r.ID ≠ 0)
  ∧ h.db.runs.map (fun r => (r.PipelineId, r.BuildNumber))
      = h.created.map (fun r => (r.PipelineId, r.BuildNumber))
  ∧ ∀ pipelineId, buildNumbersOf pipelineId h.created
      = (List.range' 1 (buildNumbersOf pipelineId h.created).length).map
          (fun n => n % uintSize)

/-- What a caller puts into a job record: the columns `CreatePipelineRun`
does not write. -/
def jobPayload (j : PipelineRunJob) : String × GoMap × GoMap := (j.Status, j.Env, j.Params)

/-- What a caller puts into a stage record: the columns `CreatePipelineRun`
does not write, with the payloads of the jobs in order. -/
def stagePayload (s : PipelineRunStage) :
    String × GoMapRef × GoMap × Nat × List (String × GoMap × GoMap) :=
  (s.Status, s.Env, s.CustomParams, s.UpdateTime, s.Jobs.map jobPayload)

/-- A list of stages is linked from `prev`: the first stage has
`PrevStageRunId = prev` and every later stage has the id of the stage before. -/
def linkedFrom : Nat → List PipelineRunStage → Prop
  | _, [] => True
  | prev, s :: rest => s.PrevStageRunId = prev ∧ linkedFrom s.ID rest

/-- The id at the end of a list of stages linked from `prev`. -/
def endID : Nat → List PipelineRunStage → Nat
  | prev, [] => prev
  | _, s :: rest => endID s.ID rest

/-! ## Sample data -/

/-- A run of pipeline 7 as a caller passes it to `CreatePipelineRun`. -/
def sampleRun : PipelineRun :=
  { ID := 0, PipelineId := 7, BuildNumber := 0, Status := "Wait", Env := some [],
    Operator := "ann", UpdateTime := 0 }

/-- Two stages, the first with two waiting jobs and the second with one. -/
def sampleStages : List PipelineRunStage :=
  [stageWith "Wait" ["Wait", "Wait"], stageWith "Wait" ["Wait"]]

/-- The store after `CreatePipelineRun` of the sample run on an empty store. -/
def sampleDB : DB :=
  match CreatePipelineRun emptyDB sampleRun sampleStages with
  | .ok (db, _, _) => db
  | .error _ => emptyDB

/-- A request reporting both jobs of the first sample stage as OK. -/
def sampleUpdate : UpdateStageObj :=
  { StageRunId := 1, StageRunStatus := "",
    StageRunJobs := some
      [{ ID := 1, StageRunId := 1, Status := "OK", Env := [], Params := [] },
       { ID := 2, StageRunId := 1, Status := "OK", Env := [], Params := [] }] }

/-- Creations for pipelines 7 and 8 with an update in between. -/
def sampleCalls : List Call :=
  [.create sampleRun sampleStages,
   .update 3 9 (some sampleUpdate),
   .create { sampleRun with PipelineId := 8 } sampleStages,
   .create sampleRun [],
   .create sampleRun sampleStages]

/-- A chain of three stages of run 1, as loaded. -/
def sampleChain : List PipelineRunStage :=
  [{ stageWith "OK" [] with
      ID := 4, PipelineRunId := 1, PrevStageRunId := 0,
      Jobs := [{ jobWith "OK" with StageRunId := 4 }] },
   { stageWith "Doing" [] with
      ID := 2, PipelineRunId := 1, PrevStageRunId := 4,
      Jobs := [{ jobWith "Doing" with StageRunId := 2 }] },
   { stageWith "Wait" [] with
      ID := 9, PipelineRunId := 1, PrevStageRunId := 2,
      Jobs := [{ jobWith "Wait" with StageRunId := 9 }] }]

/-- A store that returns the rows of the sample chain out of chain order. -/
def sampleChainDB : DB :=
  { runs := [],
    stages := [{ stageWith "Wait" [] with ID := 9, PipelineRunId := 1, PrevStageRunId := 2 },
               { stageWith "OK" [] with ID := 4, PipelineRunId := 1, PrevStageRunId := 0 },
               { stageWith "Doing" [] with ID := 2, PipelineRunId := 1, PrevStageRunId := 4 }],
    jobs := [{ jobWith "OK" with StageRunId := 4 }, { jobWith "Doing" with StageRunId := 2 },
             { jobWith "Wait" with StageRunId := 9 }] }

/-- A second stage of run 1 with operator overrides, one of which collides
with a key of the environment of the stage before it. -/
def sampleParamStage : PipelineRunStage :=
  { stageWith "Wait" [] with
    ID := 2, PipelineRunId := 1, PrevStageRunId := 1,
    CustomParams := [("TAG", .str "v2"), ("REGION", .str "eu")] }

/-- A store in which stage 1 of run 1 has left an environment. -/
def sampleEnvDB : DB :=
  { runs := [{ sampleRun with ID := 1, Env := some [("TAG", .str "run")] }],
    stages := [{ stageWith "OK" [] with
                  ID := 1, PipelineRunId := 1, PrevStageRunId := 0,
                  Env := some [("TAG", .str "v1"), ("COMMIT", .str "abc")] },
               sampleParamStage],
    jobs := [] }

/-- Stored stages with distinct non-zero ids whose links branch (stages 2
and 3 both follow stage 1), dangle (stage 4 follows a stage 8 that is not
stored) and close a cycle (stages 5 and 6 follow each other). -/
def sampleTangle : List PipelineRunStage :=
  [{ stageWith "Wait" [] with ID := 5, PipelineRunId := 1, PrevStageRunId := 6 },
   { stageWith "Wait" [] with ID := 3, PipelineRunId := 1, PrevStageRunId := 1 },
   { stageWith "Wait" [] with ID := 2, PipelineRunId := 1, PrevStageRunId := 1 },
   { stageWith "Wait" [] with ID := 1, PipelineRunId := 1, PrevStageRunId := 0 },
   { stageWith "Wait" [] with ID := 4, PipelineRunId := 1, PrevStageRunId := 8 },
   { stageWith "Wait" [] with ID := 6, PipelineRunId := 1, PrevStageRunId := 5 }]

/-- The first sample stage with a new operator override. -/
def sampleNewParamsStage : PipelineRunStage :=
  { stageWith "Wait" [] with
    ID := 1, PipelineRunId := 1, PrevStageRunId := 0, CustomParams := [("TAG", .str "v2")] }

/-- The two jobs of the first sample stage with new parameters. -/
def sampleNewParamsJobs : List PipelineRunJob :=
  [{ ID := 1, StageRunId := 1, Status := "Wait", Env := [], Params := [("A", .num 1)] },
   { ID := 2, StageRunId := 1, Status := "Wait", Env := [], Params := [("B", .num 2)] }]

/-- A store that refuses the save of the second job and no other save. -/
def failSecondJob : Nat → Bool := fun n => n == 2

/-- A request reporting the second job of the first sample stage as OK. -/
def sampleSecondUpdate : UpdateStageObj :=
  { StageRunId := 1, StageRunStatus := "",
    StageRunJobs := some
      [{ ID := 2, StageRunId := 1, Status := "OK", Env := [], Params := [] }] }

/-- The sample store with the first job of the first stage already OK. -/
def sampleHalfDoneDB : DB :=
  { sampleDB with
    jobs := [{ ID := 1, StageRunId := 1, Status := "OK", Env := [], Params := [] },
             { ID := 2, StageRunId := 1, Status := "Doing", Env := [], Params := [] },
             { ID := 3, StageRunId := 2, Status := "Wait", Env := [], Params := [] }] }

/-- A request for the first sample stage that holds a new job without a key
and an OK job under key 4, the key the store assigns next. -/
def sampleNewJobUpdate : UpdateStageObj :=
  { StageRunId := 1, StageRunStatus := "",
    StageRunJobs := some
      [{ ID := 0, StageRunId := 1, Status := "Wait", Env := [], Params := [] },
       { ID := 4, StageRunId := 1, Status := "OK", Env := [], Params := [] }] }

/-- Creations for pipeline 7 whose first two run records come with keys of
the caller, 10 and then 5. -/
def samplePresetCalls : List Call :=
  [.create { sampleRun with ID := 10 } [],
   .create { sampleRun with ID := 5 } [],
   .create sampleRun [],
   .create sampleRun []]

/-- Two stages as a caller passes them: the first without an `Env` map, the
second with an operator override. -/
def sampleNilEnvStages : List PipelineRunStage :=
  [{ stageWith "Wait" ["Wait"] with Env := none },
   { stageWith "Wait" ["Wait"] with CustomParams := [("TAG", .str "v2")] }]

/-- The store after `CreatePipelineRun` of the sample run with these stages. -/
def sampleNilEnvDB : DB :=
  match CreatePipelineRun emptyDB sampleRun sampleNilEnvStages with
  | .ok (db, _, _) => db
  | .error _ => emptyDB

/-- The second of these stages as the call has created it. -/
def sampleNilEnvStage : PipelineRunStage :=
  { stageWith "Wait" [] with
    ID := 2, PipelineRunId := 1, PrevStageRunId := 1, CustomParams := [("TAG", .str "v2")] }

/-- A request reporting the first job of the first sample stage as still
waiting: no job of the stage gives a signal. -/
def sampleWaitUpdate : UpdateStageObj :=
  { StageRunId := 1, StageRunStatus := "",
    StageRunJobs := some
      [{ ID := 1, StageRunId := 1, Status := "Wait", Env := [], Params := [] }] }

/-! ## Properties of the status derivation -/

theorem statusLoop_doing (jobs : List PipelineRunJob) (status : String)
    (h : ∃ j ∈ jobs, j.Status = PipelineStatusDoing) :
    statusLoop jobs status = .returned PipelineStatusDoing := by
  induction jobs generalizing status with
  | nil => simp at h
  | cons j rest ih =>
    unfold statusLoop
    by_cases hj : j.Status = PipelineStatusDoing
    · simp [hj]
    · have hrest : ∃ j ∈ rest, j.Status = PipelineStatusDoing := by
        obtain ⟨x, hx, hxs⟩ := h
        rcases List.mem_cons.mp hx with rfl | hx
        · exact absurd hxs hj
        · exact ⟨x, hx, hxs⟩
      simp only [hj, if_false]
      split_ifs <;> exact ih _ hrest

/-- C1: a stage with at least one Doing job has derived status Doing, whatever
the other jobs, the position of the Doing job and the stored stage status. -/
theorem GetStageRunStatus_doing (stageRun : PipelineRunStage)
    (h : ∃ j ∈ stageRun.Jobs, j.Status = PipelineStatusDoing) :
    GetStageRunStatus stageRun = PipelineStatusDoing := by
  unfold GetStageRunStatus
  rw [statusLoop_doing stageRun.Jobs "" h]

theorem GetStageRunStatus_doing_witness :
    GetStageRunStatus (stageWith "Wait" ["OK", "Error", "Doing", "Wait"])
      = PipelineStatusDoing :=
  GetStageRunStatus_doing (stageWith "Wait" ["OK", "Error", "Doing", "Wait"])
    ⟨jobWith "Doing", by decide, by decide⟩

theorem statusLoop_error_stays (jobs : List PipelineRunJob)
    (hno : ∀ j ∈ jobs, j.Status ≠ PipelineStatusDoing) :
    statusLoop jobs PipelineStatusError = .finished PipelineStatusError := by
  induction jobs with
  | nil => rfl
  | cons j rest ih =>
    have hj : j.Status ≠ PipelineStatusDoing := hno j (List.mem_cons_self _ _)
    have hrest := ih (fun x hx => hno x (List.mem_cons_of_mem _ hx))
    have hne : PipelineStatusError ≠ PipelineStatusOK := by decide
    unfold statusLoop
    simp only [hj, if_false]
    split_ifs with h1 h2 h3
    · exact hrest
    · exact absurd rfl h2.2
    · exact absurd h3.2 hne
    · exact hrest

theorem statusLoop_error (jobs : List PipelineRunJob) (status : String)
    (herr : ∃ j ∈ jobs, j.Status = PipelineStatusError)
    (hno : ∀ j ∈ jobs, j.Status ≠ PipelineStatusDoing) :
    statusLoop jobs status = .finished PipelineStatusError := by
  induction jobs generalizing status with
  | nil => simp at herr
  | cons j rest ih =>
    have hj : j.Status ≠ PipelineStatusDoing := hno j (List.mem_cons_self _ _)
    have hnor : ∀ x ∈ rest, x.Status ≠ PipelineStatusDoing :=
      fun x hx => hno x (List.mem_cons_of_mem _ hx)
    unfold statusLoop
    simp only [hj, if_false]
    by_cases he : j.Status = PipelineStatusError
    · simp only [he, if_true]
      exact statusLoop_error_stays rest hnor
    · have hrest : ∃ x ∈ rest, x.Status = PipelineStatusError := by
        obtain ⟨x, hx, hxs⟩ := herr
        rcases List.mem_cons.mp hx with rfl | hx
        · exact absurd hxs he
        · exact ⟨x, hx, hxs⟩
      simp only [he, if_false]
      split_ifs <;> exact ih _ hrest hnor

/-- C2: a stage with at least one Error job and no Doing job has derived status
Error, whatever the number and the order of its other jobs. -/
theorem GetStageRunStatus_error (stageRun : PipelineRunStage)
    (herr : ∃ j ∈ stageRun.Jobs, j.Status = PipelineStatusError)
    (hno : ∀ j ∈ stageRun.Jobs, j.Status ≠ PipelineStatusDoing) :
    GetStageRunStatus stageRun = PipelineStatusError := by
  unfold GetStageRunStatus
  rw [statusLoop_error stageRun.Jobs "" herr hno]
  rfl

theorem GetStageRunStatus_error_witness :
    GetStageRunStatus (stageWith "Wait" ["OK", "Wait", "Error", "OK"])
      = PipelineStatusError :=
  GetStageRunStatus_error (stageWith "Wait" ["OK", "Wait", "Error", "OK"])
    ⟨jobWith "Error", by decide, by decide⟩ (by decide)

/-- C3: on the jobs [Wait, OK], and on [OK, Wait, OK], which hold an OK job and
a Wait job and neither Doing nor Error, the derived status is OK and not Doing;
only on [OK, Wait] it is Doing. -/
theorem GetStageRunStatus_wait_then_ok :
    GetStageRunStatus (stageWith "Wait" ["Wait", "OK"]) = PipelineStatusOK
    ∧ GetStageRunStatus (stageWith "Wait" ["OK", "Wait", "OK"]) = PipelineStatusOK
    ∧ GetStageRunStatus (stageWith "Wait" ["OK", "Wait"]) = PipelineStatusDoing
    ∧ PipelineStatusOK ≠ PipelineStatusDoing := by
  decide

/-- C4: the derived status depends on the order of the jobs: the job lists
[OK, Wait] and [Wait, OK] are permutations of each other and give Doing and OK
for the same stage. -/
theorem GetStageRunStatus_order_dependent :
    ¬ ∀ (stageRun : PipelineRunStage) (jobs1 jobs2 : List PipelineRunJob),
        jobs1.Perm jobs2 →
        GetStageRunStatus { stageRun with Jobs := jobs1 }
          = GetStageRunStatus { stageRun with Jobs := jobs2 } := by
  intro h
  have hperm : [jobWith "OK", jobWith "Wait"].Perm [jobWith "Wait", jobWith "OK"] :=
    List.Perm.swap _ _ _
  have := h (stageWith "Wait" []) _ _ hperm
  revert this
  decide

theorem statusLoop_no_signal (jobs : List PipelineRunJob)
    (h : ∀ j ∈ jobs, j.Status ≠ PipelineStatusOK ∧ j.Status ≠ PipelineStatusError
      ∧ j.Status ≠ PipelineStatusDoing) :
    statusLoop jobs "" = .finished "" := by
  induction jobs with
  | nil => rfl
  | cons j rest ih =>
    obtain ⟨hok, herr, hdo⟩ := h j (List.mem_cons_self _ _)
    have hrest := ih (fun x hx => h x (List.mem_cons_of_mem _ hx))
    have hne : ("" : String) ≠ PipelineStatusOK := by decide
    unfold statusLoop
    simp only [hdo, herr, hok, if_false, false_and]
    split_ifs with h3
    · exact absurd h3.2 hne
    · exact hrest

/-- C5: a stage none of whose jobs is OK, Error or Doing (an empty job list, or
Wait jobs only) keeps its stored status as derived status. -/
theorem GetStageRunStatus_no_signal (stageRun : PipelineRunStage)
    (h : ∀ j ∈ stageRun.Jobs, j.Status ≠ PipelineStatusOK ∧ j.Status ≠ PipelineStatusError
      ∧ j.Status ≠ PipelineStatusDoing) :
    GetStageRunStatus stageRun = stageRun.Status := by
  unfold GetStageRunStatus
  rw [statusLoop_no_signal stageRun.Jobs h]
  rfl

theorem GetStageRunStatus_no_signal_witness :
    GetStageRunStatus (stageWith "Pause" ["Wait", "Wait"]) = "Pause"
    ∧ GetStageRunStatus (stageWith "OK" []) = "OK" :=
  ⟨GetStageRunStatus_no_signal (stageWith "Pause" ["Wait", "Wait"]) (by decide),
   GetStageRunStatus_no_signal (stageWith "OK" []) (by decide)⟩

/-! ## Properties of the store operations -/

theorem le_foldr_max (keys : List Nat) (k : Nat) (h : k ∈ keys) : k ≤ keys.foldr max 0 := by
  induction keys with
  | nil => simp at h
  | cons a rest ih =>
    rcases List.mem_cons.mp h with rfl | h
    · exact le_max_left _ _
    · exact le_trans (ih h) (le_max_right _ _)

theorem lt_nextKey (keys : List Nat) (k : Nat) (h : k ∈ keys) : k < nextKey keys :=
  Nat.lt_succ_of_le (le_foldr_max keys k h)

theorem nextKey_pos (keys : List Nat) : 0 < nextKey keys := Nat.succ_pos _

theorem nextKey_not_mem (keys : List Nat) : nextKey keys ∉ keys :=
  fun h => lt_irrefl _ (lt_nextKey keys _ h)

section Tables

variable {α : Type} (key : α → Nat) (setKey : Nat → α → α)

theorem find_map_replace (row : α) (rows : List α)
    (hex : ∃ r ∈ rows, key r = key row) :
    (rows.map (fun r => if key r = key row then row else r)).find?
      (fun r => decide (key r = key row)) = some row := by
  induction rows with
  | nil => simp at hex
  | cons a rest ih =>
    by_cases ha : key a = key row
    · simp [List.find?, ha]
    · have hrest : ∃ r ∈ rest, key r = key row := by
        obtain ⟨r, hr, hk⟩ := hex
        rcases List.mem_cons.mp hr with rfl | hr
        · exact absurd hk ha
        · exact ⟨r, hr, hk⟩
      simp only [List.map_cons, ha, if_false, List.find?, decide_False]
      exact ih hrest

theorem find_dbInsert (row : α) (rows : List α)
    (hno : ∀ r ∈ rows, key r ≠ key row) :
    (dbInsert key row rows).find? (fun r => decide (key r = key row)) = some row := by
  induction rows with
  | nil => simp [dbInsert]
  | cons a rest ih =>
    have ha : key a ≠ key row := hno a (List.mem_cons_self _ _)
    unfold dbInsert
    split_ifs
    · simp
    · simp only [List.find?, ha, decide_False]
      exact ih (fun r hr => hno r (List.mem_cons_of_mem _ hr))

theorem find_dbCreateAuto (hkey : ∀ k a, key (setKey k a) = k) (row : α) (rows : List α) :
    (dbCreateAuto key setKey row rows).1.find?
      (fun r => decide (key r = key (dbCreateAuto key setKey row rows).2))
      = some (dbCreateAuto key setKey row rows).2 := by
  simp only [dbCreateAuto, hkey]
  rw [List.find?_append]
  have hnone : rows.find? (fun r => decide (key r = nextKey (rows.map key))) = none := by
    rw [List.find?_eq_none]
    intro r hr
    have := lt_nextKey (rows.map key) (key r) (List.mem_map_of_mem key hr)
    simp
    omega
  rw [hnone]
  simp [hkey]

/-- A saved record is the row found under its key afterwards. -/
theorem find_dbSave (hkey : ∀ k a, key (setKey k a) = k) (row : α) (rows : List α) :
    (dbSave key setKey row rows).1.find?
      (fun r => decide (key r = key (dbSave key setKey row rows).2))
      = some (dbSave key setKey row rows).2 := by
  unfold dbSave
  split_ifs with h0 hany
  · exact find_dbCreateAuto key setKey hkey row rows
  · apply find_map_replace
    simpa using hany
  · apply find_dbInsert
    intro r hr hk
    apply hany
    simp only [List.any_eq_true, decide_eq_true_eq]
    exact ⟨r, hr, hk⟩

end Tables

theorem run_key_set (k : Nat) (r : PipelineRun) : (PipelineRun.withID k r).ID = k := rfl

theorem stage_key_set (k : Nat) (s : PipelineRunStage) : (PipelineRunStage.withID k s).ID = k :=
  rfl

theorem job_key_set (k : Nat) (j : PipelineRunJob) : (PipelineRunJob.withID k j).ID = k := rfl

/-- A saved run differs from the record passed to `Save` in its key at most. -/
theorem dbSave_run_fields (row : PipelineRun) (rows : List PipelineRun) :
    (dbSave PipelineRun.ID PipelineRun.withID row rows).2.Status = row.Status
    ∧ (dbSave PipelineRun.ID PipelineRun.withID row rows).2.PipelineId = row.PipelineId
    ∧ (dbSave PipelineRun.ID PipelineRun.withID row rows).2.BuildNumber = row.BuildNumber := by
  unfold dbSave
  split_ifs <;> simp [dbCreateAuto, PipelineRun.withID]

/-! ## Frame of the store operations -/

section Tables

variable {α : Type} (key : α → Nat) (setKey : Nat → α → α)

theorem dbInsert_keys (row : α) (rows : List α) (k : Nat) (hk : k ∈ rows.map key) :
    k ∈ (dbInsert key row rows).map key := by
  induction rows with
  | nil => simp at hk
  | cons a rest ih =>
    unfold dbInsert
    split_ifs
    · exact List.mem_cons_of_mem _ hk
    · rw [List.map_cons] at hk ⊢
      rcases List.mem_cons.mp hk with h | h
      · exact h ▸ List.mem_cons_self _ _
      · exact List.mem_cons_of_mem _ (ih h)

/-- `Save` removes no key from a table. -/
theorem dbSave_keys (row : α) (rows : List α) (k : Nat) (hk : k ∈ rows.map key) :
    k ∈ (dbSave key setKey row rows).1.map key := by
  unfold dbSave
  split_ifs with h0 hany
  · simp only [dbCreateAuto, List.map_append]
    exact List.mem_append_left _ hk
  · obtain ⟨r, hr, hrk⟩ := List.mem_map.mp hk
    rw [List.mem_map]
    by_cases hc : key r = key row
    · exact ⟨row, List.mem_map.mpr ⟨r, hr, by simp [hc]⟩, by rw [← hrk, hc]⟩
    · exact ⟨r, List.mem_map.mpr ⟨r, hr, by simp [hc]⟩, hrk⟩
  · exact dbInsert_keys key row rows k hk

/-- The key of a saved record is the key it came with, or a key the table
did not hold when the record came with none. -/
theorem dbSave_record_key (hkey : ∀ k a, key (setKey k a) = k) (row : α) (rows : List α) :
    key (dbSave key setKey row rows).2 = key row
    ∨ (key row = 0 ∧ key (dbSave key setKey row rows).2 ∉ rows.map key) := by
  unfold dbSave
  split_ifs with h0 hany
  · right
    refine ⟨h0, ?_⟩
    simp only [dbCreateAuto, hkey]
    exact nextKey_not_mem _
  · exact Or.inl rfl
  · exact Or.inl rfl

theorem dbInsert_filter (q : Nat → Bool) (row : α) (rows : List α) (hq : q (key row) = false) :
    (dbInsert key row rows).filter (fun r => q (key r)) = rows.filter (fun r => q (key r)) := by
  induction rows with
  | nil => simp [dbInsert, hq]
  | cons a rest ih =>
    unfold dbInsert
    split_ifs
    · simp [List.filter_cons, hq]
    · simp only [List.filter_cons, ih]

theorem map_replace_filter (q : Nat → Bool) (row : α) (rows : List α)
    (hq : q (key row) = false) :
    (rows.map (fun r => if key r = key row then row else r)).filter (fun r => q (key r))
      = rows.filter (fun r => q (key r)) := by
  induction rows with
  | nil => rfl
  | cons a rest ih =>
    rw [List.map_cons, List.filter_cons, List.filter_cons, ih]
    by_cases ha : key a = key row
    · simp [ha, hq]
    · simp [ha]

/-- `Save` leaves the rows whose keys are set apart from the key of the saved
record as they are, and in their order. -/
theorem dbSave_filter (q : Nat → Bool) (row : α)
    (rows : List α) (hq : q (key (dbSave key setKey row rows).2) = false) :
    (dbSave key setKey row rows).1.filter (fun r => q (key r))
      = rows.filter (fun r => q (key r)) := by
  unfold dbSave at hq ⊢
  split_ifs at hq ⊢ with h0 hany
  · simp only [dbCreateAuto] at hq ⊢
    rw [List.filter_append]
    simp [List.filter_cons, hq]
  · exact map_replace_filter key q row rows hq
  · exact dbInsert_filter key q row rows hq

/-- Saving a record over a row that has its non-zero key overwrites the rows
with that key and no other row. -/
theorem dbSave_existing (row0 row : α) (rows : List α) (hmem : row0 ∈ rows)
    (hk : key row = key row0) (hne : key row0 ≠ 0) :
    dbSave key setKey row rows
      = (rows.map (fun r => if key r = key row then row else r), row) := by
  unfold dbSave
  have hany : rows.any (fun r => decide (key r = key row)) = true := by
    simp only [List.any_eq_true, decide_eq_true_eq]
    exact ⟨row0, hmem, hk.symm⟩
  rw [if_neg (by rw [hk]; exact hne), if_pos hany]

end Tables

theorem saveJobs_cons (tbl : List PipelineRunJob) (runJob : PipelineRunJob)
    (rest : List PipelineRunJob) :
    saveJobs tbl (runJob :: rest)
      = saveJobs (dbSave PipelineRunJob.ID PipelineRunJob.withID runJob tbl).1 rest := rfl

/-- The save loop leaves the rows whose keys are none of the saved records'
keys as they are, and in their order. -/
theorem saveJobs_filter (q : Nat → Bool) (runJobs tbl : List PipelineRunJob)
    (hq : ∀ rec ∈ saveJobsRecords tbl runJobs, q rec.ID = false) :
    (saveJobs tbl runJobs).filter (fun r => q r.ID) = tbl.filter (fun r => q r.ID) := by
  induction runJobs generalizing tbl with
  | nil => rfl
  | cons j rest ih =>
    rw [saveJobs_cons, ih _ (fun rec hrec => hq rec (List.mem_cons_of_mem _ hrec))]
    exact dbSave_filter PipelineRunJob.ID PipelineRunJob.withID q j tbl
      (hq _ (List.mem_cons_self _ _))

/-- A key the table held before the save loop is the key of a saved record
only if the request came with it. -/
theorem saveJobsRecords_old_key (runJobs tbl : List PipelineRunJob) (k : Nat)
    (hk : k ∈ tbl.map PipelineRunJob.ID)
    (hrec : k ∈ (saveJobsRecords tbl runJobs).map PipelineRunJob.ID) :
    k ∈ runJobs.map PipelineRunJob.ID := by
  induction runJobs generalizing tbl with
  | nil => simp [saveJobsRecords] at hrec
  | cons j rest ih =>
    simp only [saveJobsRecords, List.map_cons, List.mem_cons] at hrec
    rw [List.map_cons]
    rcases hrec with h | h
    · rcases dbSave_record_key PipelineRunJob.ID PipelineRunJob.withID job_key_set j tbl
        with e | ⟨-, e⟩
      · rw [h, e]
        exact List.mem_cons_self _ _
      · exact absurd (h ▸ hk) e
    · exact List.mem_cons_of_mem _
        (ih _ (dbSave_keys PipelineRunJob.ID PipelineRunJob.withID j tbl k hk) h)

/-! ## Properties of UpdatePipelineStageRun -/

/-- What a transaction function that returned no error has done. -/
theorem updateStageRunTx_ok {now : Nat} {db db1 : DB} {obj : UpdateStageObj}
    {run : PipelineRun} {stage : PipelineRunStage}
    (h : updateStageRunTx now db obj = .ok (db1, run, stage)) :
    ∃ (stage0 : PipelineRunStage) (run0 : PipelineRun),
      dbFirst (fun s => decide (s.ID = obj.StageRunId)) db.stages = some stage0
      ∧ dbFirst (fun r => decide (r.ID = stage.PipelineRunId)) db.runs = some run0
      ∧ run = (dbSave PipelineRun.ID PipelineRun.withID
          { run0 with Status := runStatusFor stage.Status run0.Status, UpdateTime := now }
          db.runs).2
      ∧ db1.runs = (dbSave PipelineRun.ID PipelineRun.withID
          { run0 with Status := runStatusFor stage.Status run0.Status, UpdateTime := now }
          db.runs).1
      ∧ db1.jobs = savedJobTable db obj
      ∧ stage = { resolveStageRun (savedJobTable db obj) obj stage0 with
          UpdateTime := now,
          ID := (dbSave PipelineRunStage.ID PipelineRunStage.withID
            ({ resolveStageRun (savedJobTable db obj) obj stage0 with
                UpdateTime := now } : PipelineRunStage).row db.stages).2.ID }
      ∧ db1.stages = (dbSave PipelineRunStage.ID PipelineRunStage.withID
            ({ resolveStageRun (savedJobTable db obj) obj stage0 with
                UpdateTime := now } : PipelineRunStage).row db.stages).1 := by
  cases hs : dbFirst (fun s => decide (s.ID = obj.StageRunId)) db.stages with
  | none => simp [updateStageRunTx, hs] at h
  | some stage0 =>
    cases hr : dbFirst (fun r => decide
        (r.ID = (resolveStageRun (savedJobTable db obj) obj stage0).PipelineRunId)) db.runs with
    | none => simp [updateStageRunTx, hs, hr] at h
    | some run0 =>
      simp only [updateStageRunTx, hs, hr, Except.ok.injEq, Prod.mk.injEq] at h
      obtain ⟨hdb, hrun, hstage⟩ := h
      subst hdb hrun hstage
      exact ⟨stage0, run0, rfl, hr, rfl, rfl, rfl, rfl, rfl⟩

/-- What a call that returned without error has gone through. -/
theorem UpdatePipelineStageRun_ok {fuel now : Nat} {db : DB} {arg : Option UpdateStageObj}
    {res : UpdateResult} (h : UpdatePipelineStageRun fuel now db arg = some (.ok res)) :
    ∃ obj, arg = some obj ∧ obj.StageRunId ≠ 0
      ∧ updateStageRunTx now db obj = .ok (res.db, res.pipelineRun, res.stageRun) := by
  unfold UpdatePipelineStageRun at h
  split at h
  · simp at h
  · rename_i obj
    split_ifs at h with h0
    · simp at h
    · split at h
      · simp at h
      · rename_i db1 run stage htx
        split at h
        · simp at h
        · simp only [Option.some.injEq, Except.ok.injEq] at h
          subst h
          exact ⟨obj, rfl, h0, htx⟩

theorem resolveStageRun_fields (jobs : List PipelineRunJob) (obj : UpdateStageObj)
    (stage : PipelineRunStage) :
    (resolveStageRun jobs obj stage).ID = stage.ID
    ∧ (resolveStageRun jobs obj stage).PipelineRunId = stage.PipelineRunId
    ∧ (resolveStageRun jobs obj stage).PrevStageRunId = stage.PrevStageRunId := by
  unfold resolveStageRun
  split_ifs <;> exact ⟨rfl, rfl, rfl⟩

/-- The run of a transaction that returned no error: it is the row read under
the `PipelineRunId` of the stage, with the status that follows from the stage
status and the time of the call, written back under its key; a row with a
non-zero key is overwritten in place and no other row is touched. -/
theorem updateStageRunTx_run {now : Nat} {db db1 : DB} {obj : UpdateStageObj}
    {run : PipelineRun} {stage : PipelineRunStage}
    (h : updateStageRunTx now db obj = .ok (db1, run, stage)) :
    ∃ run0 : PipelineRun,
      dbFirst (fun r => decide (r.ID = stage.PipelineRunId)) db.runs = some run0
      ∧ run0.ID = stage.PipelineRunId
      ∧ run.Status = runStatusFor stage.Status run0.Status
      ∧ dbFirst (fun r => decide (r.ID = run.ID)) db1.runs = some run
      ∧ (stage.PipelineRunId ≠ 0 →
          run = { run0 with Status := runStatusFor stage.Status run0.Status,
                            UpdateTime := now }
          ∧ run.ID = stage.PipelineRunId
          ∧ db1.runs = db.runs.map (fun r => if r.ID = stage.PipelineRunId then run else r)) := by
  obtain ⟨-, run0, -, hfind, hrun, hdb, -, -, -⟩ := updateStageRunTx_ok h
  have hmem : run0 ∈ db.runs := List.mem_of_find?_eq_some hfind
  have hid : run0.ID = stage.PipelineRunId := by simpa using List.find?_some hfind
  refine ⟨run0, hfind, hid, ?_, ?_, ?_⟩
  · rw [hrun]
    exact (dbSave_run_fields _ _).1
  · rw [hdb]
    conv_lhs => rw [hrun]
    conv_rhs => rw [hrun]
    exact find_dbSave PipelineRun.ID PipelineRun.withID run_key_set _ _
  · intro hnz
    have hsave := dbSave_existing PipelineRun.ID PipelineRun.withID run0
      { run0 with Status := runStatusFor stage.Status run0.Status, UpdateTime := now }
      db.runs hmem rfl (by rw [hid]; exact hnz)
    rw [hsave] at hrun hdb
    simp only at hrun hdb
    refine ⟨hrun, ?_, ?_⟩
    · rw [hrun]
      exact hid
    · rw [hdb, hrun]
      apply List.map_congr_left
      intro r _
      show (if r.ID = run0.ID then _ else r) = _
      rw [hid]

/-- The stage of a transaction that returned no error: it is the row read
under the id of the request, resolved and stamped with the time of the call,
written back over that row; no stage row with another id is touched, and the
job table is the one the saves of the payload leave. -/
theorem updateStageRunTx_stage {now : Nat} {db db1 : DB} {obj : UpdateStageObj}
    {run : PipelineRun} {stage : PipelineRunStage}
    (h : updateStageRunTx now db obj = .ok (db1, run, stage)) (hobj : obj.StageRunId ≠ 0) :
    ∃ stage0 : PipelineRunStage,
      dbFirst (fun s => decide (s.ID = obj.StageRunId)) db.stages = some stage0
      ∧ stage = { resolveStageRun (savedJobTable db obj) obj stage0 with UpdateTime := now }
      ∧ stage.ID = obj.StageRunId
      ∧ stage.PipelineRunId = stage0.PipelineRunId
      ∧ dbFirst (fun s => decide (s.ID = obj.StageRunId)) db1.stages = some stage.row
      ∧ db1.stages = db.stages.map (fun s => if s.ID = obj.StageRunId then stage.row else s)
      ∧ db1.jobs = savedJobTable db obj := by
  obtain ⟨stage0, -, hfs, -, -, -, hjobs, hstage, hstages⟩ := updateStageRunTx_ok h
  have hmem : stage0 ∈ db.stages := List.mem_of_find?_eq_some hfs
  have hid : stage0.ID = obj.StageRunId := by simpa using List.find?_some hfs
  obtain ⟨hrid, hrpid, -⟩ := resolveStageRun_fields (savedJobTable db obj) obj stage0
  have hsave := dbSave_existing PipelineRunStage.ID PipelineRunStage.withID stage0
    ({ resolveStageRun (savedJobTable db obj) obj stage0 with
        UpdateTime := now } : PipelineRunStage).row db.stages hmem hrid
    (by rw [hid]; exact hobj)
  rw [hsave] at hstage hstages
  have hstage2 : stage
      = { resolveStageRun (savedJobTable db obj) obj stage0 with UpdateTime := now } := by
    rw [hstage]
    rfl
  have hsid : stage.ID = obj.StageRunId := by
    rw [hstage2]
    show (resolveStageRun (savedJobTable db obj) obj stage0).ID = obj.StageRunId
    rw [hrid, hid]
  have hrow : ({ resolveStageRun (savedJobTable db obj) obj stage0 with
        UpdateTime := now } : PipelineRunStage).row = stage.row := by
    rw [hstage2]
  have hstagesEq : db1.stages
      = db.stages.map (fun s => if s.ID = obj.StageRunId then stage.row else s) := by
    rw [hstages, hrow]
    apply List.map_congr_left
    intro s _
    have : stage.row.ID = obj.StageRunId := hsid
    rw [this]
  refine ⟨stage0, hfs, hstage2, hsid, ?_, ?_, hstagesEq, hjobs⟩
  · rw [hstage2]
    exact hrpid
  · rw [hstagesEq]
    have := find_map_replace PipelineRunStage.ID stage.row db.stages
      ⟨stage0, hmem, by rw [hid]; exact hsid.symm⟩
    have hk : stage.row.ID = obj.StageRunId := hsid
    rw [hk] at this
    exact this

/-- C6: after a successful `UpdatePipelineStageRun` the returned run is the
run of the stage: the row read under the stage's `PipelineRunId`, written back
under that id with no other run row touched (a run row has a non-zero id), and
it is the row stored under its key. Its status follows from the new status of
the stage, the stage row of the request: Error gives Error, Doing gives Doing,
OK gives Doing, Pause gives Pause, and any other stage status leaves the
status the run had in the store before the call; the run status is OK only if
it was OK before. -/
theorem UpdatePipelineStageRun_run_status (fuel now : Nat) (db : DB)
    (arg : Option UpdateStageObj) (res : UpdateResult)
    (h : UpdatePipelineStageRun fuel now db arg = some (.ok res)) :
    ∃ run0 : PipelineRun,
      dbFirst (fun r => decide (r.ID = res.stageRun.PipelineRunId)) db.runs = some run0
      ∧ dbFirst (fun r => decide (r.ID = res.pipelineRun.ID)) res.db.runs = some res.pipelineRun
      ∧ (res.stageRun.Status = PipelineStatusError →
          res.pipelineRun.Status = PipelineStatusError)
      ∧ (res.stageRun.Status = PipelineStatusDoing →
          res.pipelineRun.Status = PipelineStatusDoing)
      ∧ (res.stageRun.Status = PipelineStatusOK →
          res.pipelineRun.Status = PipelineStatusDoing)
      ∧ (res.stageRun.Status = PipelineStatusPause →
          res.pipelineRun.Status = PipelineStatusPause)
      ∧ (res.stageRun.Status ≠ PipelineStatusError →
          res.stageRun.Status ≠ PipelineStatusDoing →
          res.stageRun.Status ≠ PipelineStatusOK →
          res.stageRun.Status ≠ PipelineStatusPause →
          res.pipelineRun.Status = run0.Status)
      ∧ (res.pipelineRun.Status = PipelineStatusOK → run0.Status = PipelineStatusOK)
      ∧ run0.ID = res.stageRun.PipelineRunId
      ∧ (res.stageRun.PipelineRunId ≠ 0 →
          res.pipelineRun.ID = res.stageRun.PipelineRunId
          ∧ res.pipelineRun
              = { run0 with Status := res.pipelineRun.Status, UpdateTime := now }
          ∧ res.db.runs = db.runs.map
              (fun r => if r.ID = res.stageRun.PipelineRunId then res.pipelineRun else r))
      ∧ (∃ obj stage0, arg = some obj
          ∧ dbFirst (fun s => decide (s.ID = obj.StageRunId)) db.stages = some stage0
          ∧ res.stageRun.ID = obj.StageRunId
          ∧ res.stageRun.PipelineRunId = stage0.PipelineRunId
          ∧ dbFirst (fun s => decide (s.ID = obj.StageRunId)) res.db.stages
              = some res.stageRun.row) := by
  obtain ⟨obj, harg, hobj, htx⟩ := UpdatePipelineStageRun_ok h
  obtain ⟨run0, hfind, hr0id, hstatus, hstored, htie⟩ := updateStageRunTx_run htx
  obtain ⟨stage0, hfs, -, hsid, hspid, hsrow, -, -⟩ := updateStageRunTx_stage htx hobj
  have hEO : PipelineStatusError ≠ PipelineStatusOK := by decide
  have hDO : PipelineStatusDoing ≠ PipelineStatusOK := by decide
  have hPO : PipelineStatusPause ≠ PipelineStatusOK := by decide
  have hDE : PipelineStatusDoing ≠ PipelineStatusError := by decide
  have hOE : PipelineStatusOK ≠ PipelineStatusError := by decide
  have hOD : PipelineStatusOK ≠ PipelineStatusDoing := by decide
  have hPE : PipelineStatusPause ≠ PipelineStatusError := by decide
  have hPD : PipelineStatusPause ≠ PipelineStatusDoing := by decide
  refine ⟨run0, hfind, hstored, ?_, ?_, ?_, ?_, ?_, ?_, hr0id, ?_,
    ⟨obj, stage0, harg, hfs, hsid, hspid, hsrow⟩⟩
  · intro hs
    rw [hstatus, hs]
    simp [runStatusFor]
  · intro hs
    rw [hstatus, hs]
    simp [runStatusFor, hDE]
  · intro hs
    rw [hstatus, hs]
    simp [runStatusFor, hOE, hOD]
  · intro hs
    rw [hstatus, hs]
    simp [runStatusFor, hPE, hPD, hPO]
  · intro h1 h2 h3 h4
    rw [hstatus]
    simp [runStatusFor, h1, h2, h3, h4]
  · intro hok
    rw [hstatus] at hok
    unfold runStatusFor at hok
    split_ifs at hok
    · exact absurd hok hEO
    · exact absurd hok hDO
    · exact absurd hok hDO
    · exact absurd hok hPO
    · exact hok
  · intro hnz
    obtain ⟨hrun, hrid, hruns⟩ := htie hnz
    refine ⟨hrid, ?_, hruns⟩
    rw [hstatus]
    exact hrun

theorem UpdatePipelineStageRun_run_status_witness :
    ∃ res, UpdatePipelineStageRun 3 9 sampleDB (some sampleUpdate) = some (.ok res)
      ∧ res.stageRun.Status = PipelineStatusOK
      ∧ res.pipelineRun.Status = PipelineStatusDoing
      ∧ res.pipelineRun.ID = res.stageRun.PipelineRunId := by
  refine ⟨_, rfl, rfl, ?_, ?_⟩
  · obtain ⟨_, _, _, _, _, hok, _⟩ :=
      UpdatePipelineStageRun_run_status 3 9 sampleDB (some sampleUpdate) _ rfl
    exact hok rfl
  · obtain ⟨_, _, _, _, _, _, _, _, _, _, htie, _⟩ :=
      UpdatePipelineStageRun_run_status 3 9 sampleDB (some sampleUpdate) _ rfl
    exact (htie (by decide)).1

/-! ## Properties of CreatePipelineRun: the stage chain -/

section Tables

variable {α : Type} (key : α → Nat) (setKey : Nat → α → α)

/-- A `Create` that succeeded has appended the record under a non-zero key
that the table did not hold: the key the store assigned to a record without
one, or the key the record came with. -/
theorem dbCreate_ok (hkey : ∀ k a, key (setKey k a) = k) {row : α} {rows : List α}
    {created : List α × α} (h : dbCreate key setKey row rows = .ok created) :
    created.1 = rows ++ [created.2]
    ∧ key created.2 ≠ 0
    ∧ key created.2 ∉ rows.map key
    ∧ ((key row = 0 ∧ created.2 = setKey (nextKey (rows.map key)) row)
        ∨ (key row ≠ 0 ∧ created.2 = row)) := by
  unfold dbCreate at h
  split_ifs at h with h0 hany
  · simp only [Except.ok.injEq] at h
    subst h
    refine ⟨rfl, ?_, ?_, Or.inl ⟨h0, rfl⟩⟩
    · simp only [dbCreateAuto, hkey]
      exact (nextKey_pos _).ne'
    · simp only [dbCreateAuto, hkey]
      exact nextKey_not_mem _
  · simp only [Except.ok.injEq] at h
    subst h
    refine ⟨rfl, h0, ?_, Or.inr ⟨h0, rfl⟩⟩
    intro hmem
    obtain ⟨r, hr, hk⟩ := List.mem_map.mp hmem
    apply hany
    simp only [List.any_eq_true, decide_eq_true_eq]
    exact ⟨r, hr, hk⟩

end Tables

theorem createJobs_spec (stageRunId : Nat) (jobs tbl : List PipelineRunJob)
    (res : List PipelineRunJob × List PipelineRunJob)
    (h : createJobs stageRunId tbl jobs = .ok res) :
    res.1 = tbl ++ res.2
    ∧ (∀ j ∈ res.2, j.StageRunId = stageRunId)
    ∧ res.2.map jobPayload = jobs.map jobPayload := by
  induction jobs generalizing tbl res with
  | nil =>
    simp only [createJobs, Except.ok.injEq] at h
    subst h
    simp
  | cons j rest ih =>
    simp only [createJobs] at h
    split at h
    · simp at h
    · rename_i created hc
      split at h
      · simp at h
      · rename_i done hd
        simp only [Except.ok.injEq] at h
        subst h
        obtain ⟨h1, h2, h3⟩ := ih created.1 done hd
        obtain ⟨c1, -, -, c4⟩ := dbCreate_ok PipelineRunJob.ID PipelineRunJob.withID
          job_key_set hc
        have hfields : created.2.StageRunId = stageRunId
            ∧ jobPayload created.2 = jobPayload j := by
          rcases c4 with ⟨-, e⟩ | ⟨-, e⟩ <;> rw [e] <;> exact ⟨rfl, rfl⟩
        refine ⟨?_, ?_, ?_⟩
        · show done.1 = tbl ++ created.2 :: done.2
          rw [h1, c1]
          simp
        · intro x hx
          rcases List.mem_cons.mp hx with rfl | hx
          · exact hfields.1
          · exact h2 x hx
        · show (created.2 :: done.2).map jobPayload = (j :: rest).map jobPayload
          rw [List.map_cons, List.map_cons, h3, hfields.2]

/-- The stage loop of `CreatePipelineRun`, when it returns no error: the
records it leaves, their keys, and the rows it appends. -/
theorem createStages_spec (pipelineRunId : Nat) (stagesRun : List PipelineRunStage) (db : DB)
    (prev : Nat) (res : DB × List PipelineRunStage)
    (h : createStages pipelineRunId db prev stagesRun = .ok res) :
    res.2.map PipelineRunStage.PrevStageRunId
        = (prev :: res.2.map PipelineRunStage.ID).dropLast
    ∧ res.1.stages = db.stages ++ res.2.map PipelineRunStage.row
    ∧ res.1.jobs = db.jobs ++ (res.2.map PipelineRunStage.Jobs).flatten
    ∧ (∀ s ∈ res.2, s.PipelineRunId = pipelineRunId ∧ ∀ j ∈ s.Jobs, j.StageRunId = s.ID)
    ∧ res.2.map stagePayload = stagesRun.map stagePayload
    ∧ (res.2.map PipelineRunStage.ID).Nodup
    ∧ (∀ s ∈ res.2, s.ID ≠ 0 ∧ s.ID ∉ db.stages.map PipelineRunStage.ID)
    ∧ res.1.runs = db.runs := by
  induction stagesRun generalizing db prev res with
  | nil =>
    simp only [createStages, Except.ok.injEq] at h
    subst h
    simp
  | cons s rest ih =>
    simp only [createStages] at h
    split at h
    · simp at h
    · rename_i created hc
      split at h
      · simp at h
      · rename_i jobs hj
        split at h
        · simp at h
        · rename_i done hd
          simp only [Except.ok.injEq] at h
          subst h
          obtain ⟨h1, h2, h3, h4, h5, h6, h7, h8⟩ := ih _ _ done hd
          obtain ⟨j1, j2, j3⟩ := createJobs_spec _ _ _ jobs hj
          obtain ⟨c1, c2, c3, c4⟩ := dbCreate_ok PipelineRunStage.ID PipelineRunStage.withID
            stage_key_set hc
          simp only at h2 h3 h7 h8
          have hrow : ({ s with
                          ID := created.2.ID, PipelineRunId := pipelineRunId,
                          PrevStageRunId := prev, Jobs := jobs.2 } : PipelineRunStage).row
              = created.2 := by
            rcases c4 with ⟨-, e⟩ | ⟨-, e⟩
            · rw [e]
              rfl
            · rw [e]
              rfl
          refine ⟨?_, ?_, ?_, ?_, ?_, ?_, ?_, ?_⟩
          · show (_ :: done.2).map PipelineRunStage.PrevStageRunId = _
            rw [List.map_cons, List.map_cons, h1]
            simp [List.dropLast]
          · show done.1.stages = db.stages ++ (_ :: done.2).map PipelineRunStage.row
            rw [h2, c1, List.map_cons, hrow, List.append_assoc]
            rfl
          · show done.1.jobs = db.jobs ++ ((_ :: done.2).map PipelineRunStage.Jobs).flatten
            rw [h3, j1, List.map_cons, List.flatten_cons, List.append_assoc]
          · intro x hx
            rcases List.mem_cons.mp hx with rfl | hx
            · exact ⟨rfl, j2⟩
            · exact h4 x hx
          · show (_ :: done.2).map stagePayload = (s :: rest).map stagePayload
            rw [List.map_cons, List.map_cons, h5]
            congr 1
            simp only [stagePayload, j3]
          · show ((_ :: done.2).map PipelineRunStage.ID).Nodup
            rw [List.map_cons, List.nodup_cons]
            refine ⟨?_, h6⟩
            intro hmem
            obtain ⟨x, hx, hxid⟩ := List.mem_map.mp hmem
            apply (h7 x hx).2
            rw [c1, List.map_append]
            exact List.mem_append_right _ (by simp [hxid])
          · intro x hx
            rcases List.mem_cons.mp hx with rfl | hx
            · exact ⟨c2, c3⟩
            · refine ⟨(h7 x hx).1, ?_⟩
              intro hmem
              apply (h7 x hx).2
              rw [c1, List.map_append]
              exact List.mem_append_left _ hmem
          · exact h8

/-- The steps that a `CreatePipelineRun` call without error has gone through. -/
theorem CreatePipelineRun_ok {db db1 : DB} {pipelineRun run : PipelineRun}
    {stagesRun stages : List PipelineRunStage}
    (h : CreatePipelineRun db pipelineRun stagesRun = .ok (db1, run, stages)) :
    ∃ (env : GoMap) (created : List PipelineRun × PipelineRun),
      pipelineRun.Env = some env
      ∧ dbCreate PipelineRun.ID PipelineRun.withID
          { pipelineRun with
            BuildNumber := nextBuildNumber db pipelineRun.PipelineId,
            Env := some (mapSet (mapSet env PipelineEnvPipelineBuildNumber
                (.num (nextBuildNumber db pipelineRun.PipelineId)))
              PipelineEnvPipelineTriggerUser (.str pipelineRun.Operator)) } db.runs
          = .ok created
      ∧ run = created.2
      ∧ createStages run.ID { db with runs := created.1 } 0 stagesRun = .ok (db1, stages) := by
  unfold CreatePipelineRun at h
  simp only at h
  split at h
  · simp at h
  · rename_i env henv
    split at h
    · simp at h
    · rename_i created hc
      split at h
      · simp at h
      · rename_i done hd
        simp only [Except.ok.injEq, Prod.mk.injEq] at h
        obtain ⟨hdb, hrun, hstages⟩ := h
        refine ⟨env, created, henv, hc, hrun.symm, ?_⟩
        rw [← hrun, hd, ← hdb, ← hstages]

/-- C8: after a successful `CreatePipelineRun` with a non-empty stage list the
created stages are the caller's in the caller's order, with pairwise distinct
non-zero ids, and form one chain: the first has `PrevStageRunId` 0 and every
later one has the id of the one before it, so exactly one stage has
`PrevStageRunId` 0 and no two stages share a predecessor; every stage carries
the id of the new run and every job the id of its stage; the stage and job
rows are appended to the store. -/
theorem CreatePipelineRun_chain (db db1 : DB) (pipelineRun run : PipelineRun)
    (stagesRun stages : List PipelineRunStage)
    (h : CreatePipelineRun db pipelineRun stagesRun = .ok (db1, run, stages))
    (hne : stagesRun ≠ []) :
    stages.map stagePayload = stagesRun.map stagePayload
    ∧ (stages.map PipelineRunStage.ID).Nodup
    ∧ (∀ s ∈ stages, s.ID ≠ 0)
    ∧ stages.head?.map PipelineRunStage.PrevStageRunId = some 0
    ∧ (∀ i, i + 1 < stages.length →
        stages[i + 1]?.map PipelineRunStage.PrevStageRunId
          = stages[i]?.map PipelineRunStage.ID)
    ∧ (stages.map PipelineRunStage.PrevStageRunId).count 0 = 1
    ∧ (stages.map PipelineRunStage.PrevStageRunId).Nodup
    ∧ (∀ s ∈ stages, s.PipelineRunId = run.ID ∧ ∀ j ∈ s.Jobs, j.StageRunId = s.ID)
    ∧ db1.stages = db.stages ++ stages.map PipelineRunStage.row
    ∧ db1.jobs = db.jobs ++ (stages.map PipelineRunStage.Jobs).flatten := by
  obtain ⟨env, created, -, -, hrun, hst⟩ := CreatePipelineRun_ok h
  obtain ⟨hprev, hrows, hjobs, hown, hpay, hnd, hfresh, -⟩ :=
    createStages_spec run.ID stagesRun _ 0 (db1, stages) hst
  simp only at hprev hrows hjobs hown hpay hnd hfresh
  have hlen : stages.length = stagesRun.length := by
    have := congrArg List.length hpay
    simpa using this
  have hne1 : stages.map PipelineRunStage.ID ≠ [] := by
    intro hnil
    apply hne
    have h0 : stages.length = 0 := by
      have := congrArg List.length hnil
      simpa using this
    exact List.length_eq_zero.mp (hlen ▸ h0)
  rw [List.dropLast_cons_of_ne_nil hne1] at hprev
  have hzero : (0 : Nat) ∉ (stages.map PipelineRunStage.ID).dropLast := by
    intro hmem
    obtain ⟨x, hx, hxid⟩ := List.mem_map.mp ((List.dropLast_sublist _).subset hmem)
    exact (hfresh x hx).1 hxid
  refine ⟨hpay, hnd, fun x hx => (hfresh x hx).1, ?_, ?_, ?_, ?_, hown, hrows, hjobs⟩
  · have := congrArg List.head? hprev
    simpa using this
  · intro i hi
    have := congrArg (fun l => l[i + 1]?) hprev
    simp only [List.getElem?_map, List.getElem?_cons_succ, List.getElem?_dropLast] at this
    rw [this, if_pos (by simp; omega)]
  · rw [hprev, List.count_cons_self, List.count_eq_zero_of_not_mem hzero]
  · rw [hprev, List.nodup_cons]
    exact ⟨hzero, hnd.sublist (List.dropLast_sublist _)⟩

theorem CreatePipelineRun_chain_witness :
    ∃ db1 run stages, CreatePipelineRun emptyDB sampleRun sampleStages = .ok (db1, run, stages)
      ∧ stages.map PipelineRunStage.ID = [1, 2]
      ∧ stages.map PipelineRunStage.PrevStageRunId = [0, 1]
      ∧ (stages.map PipelineRunStage.PrevStageRunId).Nodup := by
  refine ⟨_, _, _, rfl, rfl, rfl, ?_⟩
  exact (CreatePipelineRun_chain emptyDB _ sampleRun _ sampleStages _ rfl (by decide)).2.2.2.2.2.2.1

/-! ## Properties of CreatePipelineRun: build numbers -/

section Tables

variable {α : Type} (key : α → Nat)

theorem foldl_laterKey_mem (l : List α) (best : Option α) (r : α)
    (h : l.foldl (laterKey key) best = some r) : best = some r ∨ r ∈ l := by
  induction l generalizing best with
  | nil => exact Or.inl h
  | cons a rest ih =>
    rcases ih (laterKey key best a) h with hb | hm
    · cases best with
      | none =>
        simp only [laterKey, Option.some.injEq] at hb
        exact Or.inr (hb ▸ List.mem_cons_self _ _)
      | some b =>
        simp only [laterKey] at hb
        split_ifs at hb
        · simp only [Option.some.injEq] at hb
          exact Or.inr (hb ▸ List.mem_cons_self _ _)
        · exact Or.inl hb
    · exact Or.inr (List.mem_cons_of_mem _ hm)

/-- The row `Last` returns is a row of the table that matches the condition. -/
theorem dbLast_mem (p : α → Bool) (rows : List α) (r : α)
    (h : dbLast key p rows = some r) : r ∈ rows ∧ p r = true := by
  unfold dbLast at h
  rcases foldl_laterKey_mem key _ none r h with hn | hm
  · simp at hn
  · exact List.mem_filter.mp hm

theorem foldl_laterKey_sorted (l : List α) (best : Option α)
    (hs : l.Pairwise (fun a b => key a ≤ key b))
    (hb : ∀ b, best = some b → ∀ r ∈ l, key b ≤ key r) :
    l.foldl (laterKey key) best = l.getLast?.or best := by
  induction l generalizing best with
  | nil => rfl
  | cons a rest ih =>
    rw [List.pairwise_cons] at hs
    have hstep : laterKey key best a = some a := by
      cases best with
      | none => rfl
      | some b =>
        simp only [laterKey]
        rw [if_pos (hb b rfl a (List.mem_cons_self _ _))]
    rw [List.foldl_cons, hstep, ih (some a) hs.2 (fun b hb2 r hr => by
      simp only [Option.some.injEq] at hb2
      exact hb2 ▸ hs.1 r hr), List.getLast?_cons]
    cases rest.getLast? <;> rfl

/-- In a table whose keys increase along the rows `Last` returns the last
matching row. -/
theorem dbLast_sorted (p : α → Bool) (rows : List α)
    (hs : (rows.map key).Pairwise (fun a b => a < b)) :
    dbLast key p rows = (rows.filter p).getLast? := by
  unfold dbLast
  rw [foldl_laterKey_sorted key _ none]
  · cases (rows.filter p).getLast? <;> rfl
  · apply List.Pairwise.filter
    rw [List.pairwise_map] at hs
    exact hs.imp (fun h => Nat.le_of_lt h)
  · intro b hb
    simp at hb

end Tables

theorem buildNumbersOf_eq_of_map (pipelineId : Nat) (l1 l2 : List PipelineRun)
    (h : l1.map (fun r => (r.PipelineId, r.BuildNumber))
      = l2.map (fun r => (r.PipelineId, r.BuildNumber))) :
    buildNumbersOf pipelineId l1 = buildNumbersOf pipelineId l2 := by
  have key : ∀ l : List PipelineRun, buildNumbersOf pipelineId l
      = ((l.map (fun r => (r.PipelineId, r.BuildNumber))).filter
          (fun p => decide (p.1 = pipelineId))).map Prod.snd := by
    intro l
    induction l with
    | nil => rfl
    | cons a rest ih =>
      unfold buildNumbersOf at ih ⊢
      by_cases ha : a.PipelineId = pipelineId
      · simp [List.filter_cons, ha, ih]
      · simp [List.filter_cons, ha, ih]
  rw [key, key, h]

theorem buildNumbersOf_concat (pipelineId : Nat) (l : List PipelineRun) (r : PipelineRun) :
    buildNumbersOf pipelineId (l ++ [r])
      = if r.PipelineId = pipelineId then buildNumbersOf pipelineId l ++ [r.BuildNumber]
        else buildNumbersOf pipelineId l := by
  unfold buildNumbersOf
  by_cases h : r.PipelineId = pipelineId <;> simp [List.filter_append, List.filter_cons, h]

/-- In a run table whose keys increase along the rows, the build number of
the next run of a pipeline is that of the last row of the pipeline, 0 when it
has none, plus 1, within the range of `uint`. -/
theorem nextBuildNumber_sorted (db : DB) (pipelineId : Nat)
    (hs : (db.runs.map PipelineRun.ID).Pairwise (fun a b => a < b)) :
    nextBuildNumber db pipelineId
      = ((buildNumbersOf pipelineId db.runs).getLast?.getD 0 + 1) % uintSize := by
  unfold nextBuildNumber buildNumbersOf
  rw [dbLast_sorted PipelineRun.ID _ _ hs, List.getLast?_map]
  cases (db.runs.filter (fun r => decide (r.PipelineId = pipelineId))).getLast? <;> rfl

theorem getLast_range_mod (k : Nat) :
    ((List.range' 1 k).map (fun n => n % uintSize)).getLast?.getD 0 = k % uintSize := by
  cases k with
  | zero => rfl
  | succ n =>
    rw [List.range'_1_concat, List.map_append, List.map_cons, List.map_nil,
      List.getLast?_concat]
    simp [Nat.add_comm]

/-- The run that `CreatePipelineRun` returns, and the run table it leaves. -/
theorem CreatePipelineRun_run {db db1 : DB} {pipelineRun run : PipelineRun}
    {stagesRun stages : List PipelineRunStage}
    (h : CreatePipelineRun db pipelineRun stagesRun = .ok (db1, run, stages)) :
    db1.runs = db.runs ++ [run]
    ∧ run.ID ≠ 0
    ∧ run.ID ∉ db.runs.map PipelineRun.ID
    ∧ (pipelineRun.ID = 0 → run.ID = nextKey (db.runs.map PipelineRun.ID))
    ∧ run.PipelineId = pipelineRun.PipelineId
    ∧ run.BuildNumber = nextBuildNumber db pipelineRun.PipelineId := by
  obtain ⟨env, created, -, hc, hrun, hst⟩ := CreatePipelineRun_ok h
  obtain ⟨c1, c2, c3, c4⟩ := dbCreate_ok PipelineRun.ID PipelineRun.withID run_key_set hc
  obtain ⟨-, -, -, -, -, -, -, hruns⟩ := createStages_spec _ _ _ _ _ hst
  simp only at hruns
  rw [← hrun] at c1 c2 c3 c4
  refine ⟨by rw [hruns, c1], c2, c3, ?_, ?_, ?_⟩
  · intro h0
    rcases c4 with ⟨-, e⟩ | ⟨hne, -⟩
    · rw [e]
      rfl
    · exact absurd h0 hne
  · rcases c4 with ⟨-, e⟩ | ⟨-, e⟩
    · rw [e]
      rfl
    · rw [e]
  · rcases c4 with ⟨-, e⟩ | ⟨-, e⟩
    · rw [e]
      rfl
    · rw [e]

section Tables

variable {α : Type} (key : α → Nat) (setKey : Nat → α → α)

/-- Saving a record over the row it was read from changes no column that the
record leaves as it was. -/
theorem dbSave_existing_map {β : Type} (f : α → β) (row0 row : α) (rows : List α)
    (hmem : row0 ∈ rows) (hk : key row = key row0) (hne : key row0 ≠ 0)
    (hnd : (rows.map key).Nodup) (hf : f row = f row0) :
    (dbSave key setKey row rows).1.map f = rows.map f := by
  unfold dbSave
  have hany : rows.any (fun r => decide (key r = key row)) = true := by
    simp only [List.any_eq_true, decide_eq_true_eq]
    exact ⟨row0, hmem, hk.symm⟩
  rw [if_neg (by rw [hk]; exact hne), if_pos hany]
  simp only [List.map_map]
  apply List.map_congr_left
  intro r hr
  simp only [Function.comp]
  split_ifs with hr0
  · have : r = row0 := List.inj_on_of_nodup_map hnd hr hmem (hr0.trans hk)
    rw [hf, this]
  · rfl

end Tables

theorem RunsInv_empty : RunsInv emptyHistory := by
  refine ⟨?_, ?_, ?_, ?_⟩ <;> simp [emptyHistory, emptyDB, buildNumbersOf]

theorem RunsInv_create {h h1 : History} {pipelineRun : PipelineRun}
    {stagesRun : List PipelineRunStage} (hinv : RunsInv h) (hkey : pipelineRun.ID = 0)
    (hex : Call.exec h (.create pipelineRun stagesRun) = some h1) : RunsInv h1 := by
  obtain ⟨hsorted, hnz, hmap, hseq⟩ := hinv
  simp only [Call.exec] at hex
  split at hex
  · rename_i db1 run stages hc
    simp only [Option.some.injEq] at hex
    subst hex
    obtain ⟨hruns, hrnz, -, hid, hpid, hbn⟩ := CreatePipelineRun_run hc
    have hid := hid hkey
    refine ⟨?_, ?_, ?_, ?_⟩
    · simp only [hruns, List.map_append, List.map_cons, List.map_nil]
      rw [List.pairwise_append]
      refine ⟨hsorted, List.pairwise_singleton _ _, ?_⟩
      intro a ha b hb
      rw [List.mem_singleton] at hb
      rw [hb, hid]
      exact lt_nextKey _ _ ha
    · intro r hr
      simp only [hruns, List.mem_append, List.mem_singleton] at hr
      rcases hr with hr | rfl
      · exact hnz r hr
      · exact hrnz
    · simp only [hruns, List.map_append, hmap]
    · intro pid
      simp only [buildNumbersOf_concat]
      split_ifs with hp
      · rw [nextBuildNumber_sorted _ _ hsorted, buildNumbersOf_eq_of_map _ _ _ hmap, ← hpid, hp,
          hseq pid, getLast_range_mod] at hbn
        rw [List.length_append, List.length_singleton, List.range'_1_concat, List.map_append,
          List.map_cons, List.map_nil, ← hseq pid, hbn, Nat.add_comm 1, Nat.mod_add_mod]
      · exact hseq pid
  · simp at hex

theorem RunsInv_update {h h1 : History} {fuel now : Nat} {arg : Option UpdateStageObj}
    (hinv : RunsInv h) (hex : Call.exec h (.update fuel now arg) = some h1) : RunsInv h1 := by
  obtain ⟨hsorted, hnz, hmap, hseq⟩ := hinv
  have hnd : (h.db.runs.map PipelineRun.ID).Nodup := hsorted.imp (fun hlt => Nat.ne_of_lt hlt)
  simp only [Call.exec] at hex
  split at hex
  · rename_i res hu
    simp only [Option.some.injEq] at hex
    subst hex
    obtain ⟨obj, -, -, htx⟩ := UpdatePipelineStageRun_ok hu
    obtain ⟨-, run0, -, hfind, -, hdb, -, -, -⟩ := updateStageRunTx_ok htx
    have hmem : run0 ∈ h.db.runs := List.mem_of_find?_eq_some hfind
    have hkeys := dbSave_existing_map PipelineRun.ID PipelineRun.withID PipelineRun.ID run0
      { run0 with Status := runStatusFor res.stageRun.Status run0.Status, UpdateTime := now }
      h.db.runs hmem rfl (hnz run0 hmem) hnd rfl
    have hcols := dbSave_existing_map PipelineRun.ID PipelineRun.withID
      (fun r : PipelineRun => (r.PipelineId, r.BuildNumber)) run0
      { run0 with Status := runStatusFor res.stageRun.Status run0.Status, UpdateTime := now }
      h.db.runs hmem rfl (hnz run0 hmem) hnd rfl
    refine ⟨?_, ?_, ?_, hseq⟩
    · show (res.db.runs.map PipelineRun.ID).Pairwise _
      rw [hdb, hkeys]
      exact hsorted
    · intro r hr
      have : r.ID ∈ res.db.runs.map PipelineRun.ID := List.mem_map_of_mem _ hr
      rw [hdb, hkeys] at this
      obtain ⟨r', hr', hid⟩ := List.mem_map.mp this
      rw [← hid]
      exact hnz r' hr'
    · show res.db.runs.map _ = _
      rw [hdb, hcols]
      exact hmap
  · simp at hex

theorem RunsInv_execCalls (calls : List Call) (h h1 : History) (hinv : RunsInv h)
    (hkeys : ∀ c ∈ calls, c.keylessRun = true)
    (hex : execCalls h calls = some h1) : RunsInv h1 := by
  induction calls generalizing h with
  | nil =>
    simp only [execCalls, Option.some.injEq] at hex
    exact hex ▸ hinv
  | cons c cs ih =>
    have hrest : ∀ c' ∈ cs, c'.keylessRun = true :=
      fun c' hc' => hkeys c' (List.mem_cons_of_mem _ hc')
    have hc0 := hkeys c (List.mem_cons_self _ _)
    unfold execCalls at hex
    split at hex
    · rename_i h2 hc
      cases c with
      | create pipelineRun stagesRun =>
        exact ih h2 (RunsInv_create hinv (by simpa [Call.keylessRun] using hc0) hc) hrest hex
      | update fuel now arg => exact ih h2 (RunsInv_update hinv hc) hrest hex
    · simp at hex

theorem created_execCalls (calls : List Call) (h h1 : History)
    (hex : execCalls h calls = some h1) :
    h1.created.map PipelineRun.PipelineId
      = h.created.map PipelineRun.PipelineId ++ createdPipelines calls := by
  induction calls generalizing h with
  | nil =>
    simp only [execCalls, Option.some.injEq] at hex
    simp [← hex, createdPipelines]
  | cons c cs ih =>
    unfold execCalls at hex
    split at hex
    · rename_i h2 hc
      rw [ih h2 hex]
      cases c with
      | create pipelineRun stagesRun =>
        simp only [Call.exec] at hc
        split at hc
        · rename_i db1 run stages hcr
          simp only [Option.some.injEq] at hc
          subst hc
          simp [createdPipelines, (CreatePipelineRun_run hcr).2.2.2.2.1]
        · simp at hc
      | update fuel now arg =>
        simp only [Call.exec] at hc
        split at hc
        · simp only [Option.some.injEq] at hc
          subst hc
          simp [createdPipelines]
        · simp at hc
    · simp at hex

/-- C7, as amended: starting from a store with no runs, after any sequence of
successful `CreatePipelineRun` and `UpdatePipelineStageRun` calls executed one
at a time, in which every `CreatePipelineRun` is passed a run record without a
key (`ID` 0, the store assigns the key), the runs returned by the creations
are those of the calls in order, and for every pipeline the k runs created
for it carry, in creation order, the build numbers 1, 2, ..., k taken in the
range of `uint`, which are exactly 1, 2, ..., k for fewer than `2^64` runs of
the pipeline; the rows of the run table carry the same build numbers. -/
theorem build_numbers_sequential (calls : List Call) (h : History)
    (hkeys : ∀ c ∈ calls, c.keylessRun = true)
    (hex : execCalls emptyHistory calls = some h) (pipelineId : Nat) :
    h.created.map PipelineRun.PipelineId = createdPipelines calls
    ∧ buildNumbersOf pipelineId h.created
        = (List.range' 1 ((createdPipelines calls).count pipelineId)).map
            (fun n => n % uintSize)
    ∧ ((createdPipelines calls).count pipelineId < uintSize →
        buildNumbersOf pipelineId h.created
          = List.range' 1 ((createdPipelines calls).count pipelineId))
    ∧ buildNumbersOf pipelineId h.db.runs = buildNumbersOf pipelineId h.created := by
  obtain ⟨-, -, hmap, hseq⟩ := RunsInv_execCalls calls emptyHistory h RunsInv_empty hkeys hex
  have hcreated := created_execCalls calls emptyHistory h hex
  simp only [emptyHistory, List.map_nil, List.nil_append] at hcreated
  have hlen : (buildNumbersOf pipelineId h.created).length
      = (createdPipelines calls).count pipelineId := by
    rw [← hcreated]
    unfold buildNumbersOf
    rw [List.length_map, List.count_eq_countP, List.countP_map, List.countP_eq_length_filter]
    congr 1
  have hmod : buildNumbersOf pipelineId h.created
      = (List.range' 1 ((createdPipelines calls).count pipelineId)).map
          (fun n => n % uintSize) := by
    rw [← hlen]
    exact hseq pipelineId
  refine ⟨hcreated, hmod, ?_, buildNumbersOf_eq_of_map _ _ _ hmap⟩
  intro hk
  rw [hmod]
  conv_rhs => rw [← List.map_id (List.range' 1 ((createdPipelines calls).count pipelineId))]
  apply List.map_congr_left
  intro n hn
  rw [List.mem_range'_1] at hn
  exact Nat.mod_eq_of_lt (by omega)

theorem build_numbers_sequential_witness :
    ∃ h, execCalls emptyHistory sampleCalls = some h
      ∧ buildNumbersOf 7 h.created = [1, 2, 3] ∧ buildNumbersOf 8 h.created = [1] := by
  refine ⟨_, rfl, ?_, ?_⟩
  · exact (build_numbers_sequential sampleCalls _ (by decide) rfl 7).2.2.1 (by decide)
  · exact (build_numbers_sequential sampleCalls _ (by decide) rfl 8).2.2.1 (by decide)

/-- C7, as stated, fails: when the run records of the first two
`CreatePipelineRun` calls for pipeline 7 come with the keys 10 and 5, the four
runs created from the empty store have the keys 10, 5, 11, 12 and carry the
build numbers 1, 2, 2, 3: the third creation reads the run with the greatest
key, which is the first one created. -/
theorem build_numbers_preset_keys :
    ∃ h, execCalls emptyHistory samplePresetCalls = some h
      ∧ createdPipelines samplePresetCalls = [7, 7, 7, 7]
      ∧ h.created.map PipelineRun.ID = [10, 5, 11, 12]
      ∧ buildNumbersOf 7 h.created = [1, 2, 2, 3]
      ∧ buildNumbersOf 7 h.created ≠ List.range' 1 4 :=
  ⟨_, rfl, rfl, rfl, rfl, by decide⟩

/-! ## Properties of StagesRun -/

theorem linked_prev_mem (chain : List PipelineRunStage) (p : Nat) (h : linkedFrom p chain) :
    ∀ x ∈ chain, x.PrevStageRunId = p ∨ x.PrevStageRunId ∈ chain.map PipelineRunStage.ID := by
  induction chain generalizing p with
  | nil => simp
  | cons s rest ih =>
    intro x hx
    rcases List.mem_cons.mp hx with rfl | hx
    · exact Or.inl h.1
    · right
      rcases ih s.ID h.2 x hx with hp | hp
      · rw [hp]
        exact List.mem_cons_self _ _
      · exact List.mem_cons_of_mem _ hp

theorem endID_mem (chain : List PipelineRunStage) (p : Nat) :
    endID p chain = p ∨ endID p chain ∈ chain.map PipelineRunStage.ID := by
  induction chain generalizing p with
  | nil => exact Or.inl rfl
  | cons s rest ih =>
    right
    rcases ih s.ID with h | h
    · simp only [endID, h, List.map_cons]
      exact List.mem_cons_self _ _
    · exact List.mem_cons_of_mem _ h

/-- In a chain with distinct ids linked from a value that is no id of it, no
two stages share a predecessor and no stage follows the last one. -/
theorem linked_facts (chain : List PipelineRunStage) (p : Nat) (h : linkedFrom p chain)
    (hnd : (chain.map PipelineRunStage.ID).Nodup)
    (hp : p ∉ chain.map PipelineRunStage.ID) :
    (chain.map PipelineRunStage.PrevStageRunId).Nodup
    ∧ ∀ x ∈ chain, x.PrevStageRunId ≠ endID p chain := by
  induction chain generalizing p with
  | nil => simp
  | cons s rest ih =>
    rw [List.map_cons, List.nodup_cons] at hnd
    obtain ⟨ih1, ih2⟩ := ih s.ID h.2 hnd.2 hnd.1
    have hps : p ≠ s.ID := fun e => hp (e ▸ List.mem_cons_self _ _)
    have hpr : p ∉ rest.map PipelineRunStage.ID := fun e => hp (List.mem_cons_of_mem _ e)
    refine ⟨?_, ?_⟩
    · rw [List.map_cons, List.nodup_cons]
      refine ⟨?_, ih1⟩
      intro hmem
      obtain ⟨x, hx, hxp⟩ := List.mem_map.mp hmem
      rw [h.1] at hxp
      rcases linked_prev_mem rest s.ID h.2 x hx with e | e
      · exact hps (hxp.symm.trans e)
      · exact hpr (hxp ▸ e)
    · intro x hx
      rcases List.mem_cons.mp hx with rfl | hx
      · rw [h.1]
        show p ≠ endID x.ID rest
        rcases endID_mem rest x.ID with e | e
        · rw [e]
          exact hps
        · intro e2
          exact hpr (e2 ▸ e)
      · exact ih2 x hx

/-- The reconstruction loop follows a list of stages linked from its current
`prevStageId`, provided the stored list holds these stages, holds no other
stage with the predecessor of one of them, and holds no stage that follows the
last of them. -/
theorem seqLoop_follow (stored : List PipelineRunStage) (suf : List PipelineRunStage)
    (prev fuel : Nat) (acc : List PipelineRunStage)
    (hlink : linkedFrom prev suf)
    (hmem : ∀ x ∈ suf, x ∈ stored)
    (huniq : ∀ x ∈ stored, ∀ y ∈ suf, x.PrevStageRunId = y.PrevStageRunId → x = y)
    (hend : ∀ x ∈ stored, x.PrevStageRunId ≠ endID prev suf)
    (hfuel : suf.length < fuel) :
    seqLoop fuel stored prev acc = some (acc ++ suf) := by
  induction suf generalizing prev fuel acc with
  | nil =>
    obtain ⟨n, rfl⟩ : ∃ n, fuel = n + 1 := ⟨fuel - 1, by simp at hfuel; omega⟩
    have hnone : seqScan stored prev = none := by
      unfold seqScan
      rw [List.find?_eq_none]
      intro x hx
      simpa using hend x hx
    simp [seqLoop, hnone]
  | cons s rest ih =>
    obtain ⟨n, rfl⟩ : ∃ n, fuel = n + 1 := ⟨fuel - 1, by simp at hfuel; omega⟩
    have hsome : seqScan stored prev = some s := by
      unfold seqScan
      cases hf : stored.find? (fun s => decide (s.PrevStageRunId = prev)) with
      | none =>
        rw [List.find?_eq_none] at hf
        have := hf s (hmem s (List.mem_cons_self _ _))
        simp [hlink.1] at this
      | some y =>
        have hy : y ∈ stored := List.mem_of_find?_eq_some hf
        have hyp : y.PrevStageRunId = prev := by simpa using List.find?_some hf
        rw [huniq y hy s (List.mem_cons_self _ _) (hyp.trans hlink.1.symm)]
    simp only [seqLoop, hsome]
    rw [ih s.ID n (acc ++ [s]) hlink.2 (fun x hx => hmem x (List.mem_cons_of_mem _ hx))
      (fun x hx y hy => huniq x hx y (List.mem_cons_of_mem _ hy)) hend
      (by simp at hfuel; omega)]
    simp

/-- C9: when the stages the store returns for a run are, in any order, the
stages of a chain with pairwise distinct non-zero ids, linked from 0 through
`PrevStageRunId`, `StagesRun` returns exactly the chain, every stage once and
in chain order, after one scan more than there are stages. -/
theorem StagesRun_chain (fuel : Nat) (db : DB) (pipelineRunId : Nat)
    (chain : List PipelineRunStage)
    (hperm : (loadStages db pipelineRunId).Perm chain)
    (hnd : (chain.map PipelineRunStage.ID).Nodup)
    (hnz : ∀ s ∈ chain, s.ID ≠ 0)
    (hlink : linkedFrom 0 chain)
    (hfuel : chain.length < fuel) :
    StagesRun fuel db pipelineRunId = some chain := by
  have hzero : (0 : Nat) ∉ chain.map PipelineRunStage.ID := by
    intro hmem
    obtain ⟨x, hx, hxid⟩ := List.mem_map.mp hmem
    exact hnz x hx hxid
  obtain ⟨hprevs, hend⟩ := linked_facts chain 0 hlink hnd hzero
  unfold StagesRun
  rw [seqLoop_follow (loadStages db pipelineRunId) chain 0 fuel [] hlink
    (fun x hx => hperm.mem_iff.mpr hx)
    (fun x hx y hy e => List.inj_on_of_nodup_map hprevs (hperm.mem_iff.mp hx) hy e)
    (fun x hx => hend x (hperm.mem_iff.mp hx)) hfuel]
  rfl

theorem StagesRun_chain_witness :
    StagesRun 4 sampleChainDB 1 = some sampleChain :=
  StagesRun_chain 4 sampleChainDB 1 sampleChain (by decide) (by decide) (by decide)
    ⟨rfl, rfl, rfl, trivial⟩ (by decide)

/-! ## Properties of the maps and of GetEnvBeforeStageRun -/

theorem mapGet_append (m1 m2 : GoMap) (k : String) :
    mapGet (m1 ++ m2) k
      = match mapGet m2 k with
        | some w => some w
        | none => mapGet m1 k := by
  induction m1 with
  | nil =>
    simp only [List.nil_append, mapGet]
    cases mapGet m2 k <;> rfl
  | cons kv rest ih =>
    obtain ⟨k', v⟩ := kv
    have e1 : mapGet ((k', v) :: (rest ++ m2)) k
        = match mapGet (rest ++ m2) k with
          | some w => some w
          | none => if k' = k then some v else none := rfl
    have e2 : mapGet ((k', v) :: rest) k
        = match mapGet rest k with
          | some w => some w
          | none => if k' = k then some v else none := rfl
    rw [List.cons_append, e1, e2, ih]
    cases mapGet m2 k <;> rfl

theorem mapGet_filter_ne (m : GoMap) (k k' : String) :
    mapGet (m.filter (fun kv => decide (kv.1 ≠ k))) k' = if k = k' then none else mapGet m k' := by
  induction m with
  | nil => simp [mapGet]
  | cons kv rest ih =>
    obtain ⟨k0, v⟩ := kv
    by_cases h0 : k0 = k
    · subst h0
      simp only [List.filter_cons, ne_eq, not_true_eq_false, decide_False, Bool.false_eq_true,
        if_false, ih, mapGet]
      by_cases hk : k0 = k'
      · simp [hk]
      · simp only [hk, if_false]
        cases mapGet rest k' <;> rfl
    · have hd : decide ((k0, v).1 ≠ k) = true := by simpa using h0
      simp only [List.filter_cons, hd, if_true, mapGet, ih]
      by_cases hk : k = k'
      · subst hk
        simp [h0]
      · simp only [hk, if_false]

/-- Reading a map after a write: the written key has the written value, every
other key is as before. -/
theorem mapGet_mapSet (m : GoMap) (k : String) (v : Value) (k' : String) :
    mapGet (mapSet m k v) k' = if k = k' then some v else mapGet m k' := by
  unfold mapSet
  rw [mapGet_append]
  have hfil := mapGet_filter_ne m k k'
  simp only [ne_eq, decide_not] at hfil ⊢
  by_cases hk : k = k'
  · simp [mapGet, hk]
  · simp only [mapGet, hk, if_false]
    rw [hfil]
    simp [hk]

/-- Reading a map after `for k, v := range src { dst[k] = v }`: the keys of
`src` have their `src` values, every other key is as in `dst`. -/
theorem mapGet_mapAssignAll (src dst : GoMap) (k : String) :
    mapGet (mapAssignAll dst src) k
      = match mapGet src k with
        | some v => some v
        | none => mapGet dst k := by
  induction src generalizing dst with
  | nil => rfl
  | cons kv rest ih =>
    obtain ⟨k0, v0⟩ := kv
    have hstep : mapAssignAll dst ((k0, v0) :: rest) = mapAssignAll (mapSet dst k0 v0) rest := rfl
    rw [hstep, ih, mapGet_mapSet]
    simp only [mapGet]
    cases mapGet rest k with
    | some w => rfl
    | none =>
      by_cases hk : k0 = k <;> simp [hk]

/-- Reading the result of the loop over `CustomParams` on a map variable that
the loop could write: the keys of `src` have their `src` values, every other
key reads as in the variable before. -/
theorem assignParams_ok (envs : GoMapRef) (src : GoMap) (hnil : envs = none → src = []) :
    ∃ res : GoMapRef, assignParams envs src = .ok res
      ∧ ∀ k, mapGet (mapRead res) k
          = match mapGet src k with
            | some v => some v
            | none => mapGet (mapRead envs) k := by
  cases src with
  | nil => exact ⟨envs, rfl, fun k => rfl⟩
  | cons kv rest =>
    cases envs with
    | none => exact absurd (hnil rfl) (by simp)
    | some m =>
      refine ⟨some (mapAssignAll m (kv :: rest)), rfl, ?_⟩
      intro k
      exact mapGet_mapAssignAll (kv :: rest) m k

/-- What the lookup of `GetEnvBeforeStageRun` has found when it succeeds. -/
theorem loadBaseEnv_ok (db : DB) (stageRun : PipelineRunStage) (base : GoMapRef)
    (h : loadBaseEnv db stageRun = .ok base) :
    (stageRun.PrevStageRunId = 0
        ∧ ∃ r, dbLast PipelineRun.ID (fun r => decide (r.ID = stageRun.PipelineRunId)) db.runs
              = some r
          ∧ r ∈ db.runs ∧ r.ID = stageRun.PipelineRunId ∧ base = r.Env)
    ∨ (stageRun.PrevStageRunId ≠ 0
        ∧ ∃ s, dbLast PipelineRunStage.ID (fun s => decide (s.ID = stageRun.PrevStageRunId)
              && decide (s.PipelineRunId = stageRun.PipelineRunId)) db.stages = some s
          ∧ s ∈ db.stages ∧ s.ID = stageRun.PrevStageRunId
          ∧ s.PipelineRunId = stageRun.PipelineRunId ∧ base = s.Env) := by
  unfold loadBaseEnv at h
  split_ifs at h with h0
  · cases hr : dbLast PipelineRun.ID (fun r => decide (r.ID = stageRun.PipelineRunId))
        db.runs with
    | none => simp [hr] at h
    | some r =>
      simp only [hr, Except.ok.injEq] at h
      obtain ⟨hmem, hp⟩ := dbLast_mem PipelineRun.ID _ _ _ hr
      exact Or.inl ⟨h0, r, rfl, hmem, by simpa using hp, h.symm⟩
  · cases hs : dbLast PipelineRunStage.ID (fun s => decide (s.ID = stageRun.PrevStageRunId)
        && decide (s.PipelineRunId = stageRun.PipelineRunId)) db.stages with
    | none => simp [hs] at h
    | some s =>
      simp only [hs, Except.ok.injEq] at h
      obtain ⟨hmem, hp⟩ := dbLast_mem PipelineRunStage.ID _ _ _ hs
      have hp2 : s.ID = stageRun.PrevStageRunId ∧ s.PipelineRunId = stageRun.PipelineRunId := by
        simpa using hp
      exact Or.inr ⟨h0, s, rfl, hmem, hp2.1, hp2.2, h.symm⟩

/-- C10, as amended: for every stage for which the lookup succeeds and finds
an `Env` that is not the nil map, or finds any `Env` while the stage has no
`CustomParams`, `GetEnvBeforeStageRun` returns that base overlaid with the
stage's `CustomParams`: the base is the `Env` of a run row whose id is the
stage's `PipelineRunId` when `PrevStageRunId` is 0, and otherwise the `Env`
of a stage row of the same run whose id is `PrevStageRunId`; every key of
`CustomParams` reads as its `CustomParams` value, every other key reads as in
the base, and a key of neither is absent. -/
theorem GetEnvBeforeStageRun_overlay (db : DB) (stageRun : PipelineRunStage)
    (base : GoMapRef) (hbase : loadBaseEnv db stageRun = .ok base)
    (hnil : base = none → stageRun.CustomParams = []) :
    ∃ envs : GoMapRef, GetEnvBeforeStageRun db stageRun = .ok envs
      ∧ ((stageRun.PrevStageRunId = 0
            ∧ ∃ r, dbLast PipelineRun.ID (fun r => decide (r.ID = stageRun.PipelineRunId))
                  db.runs = some r
              ∧ r ∈ db.runs ∧ r.ID = stageRun.PipelineRunId ∧ base = r.Env)
          ∨ (stageRun.PrevStageRunId ≠ 0
            ∧ ∃ s, dbLast PipelineRunStage.ID
                  (fun s => decide (s.ID = stageRun.PrevStageRunId)
                    && decide (s.PipelineRunId = stageRun.PipelineRunId)) db.stages = some s
              ∧ s ∈ db.stages ∧ s.ID = stageRun.PrevStageRunId
              ∧ s.PipelineRunId = stageRun.PipelineRunId ∧ base = s.Env))
      ∧ (∀ k v, mapGet stageRun.CustomParams k = some v → mapGet (mapRead envs) k = some v)
      ∧ (∀ k, mapGet stageRun.CustomParams k = none →
          mapGet (mapRead envs) k = mapGet (mapRead base) k) := by
  obtain ⟨envs, hassign, hread⟩ := assignParams_ok base stageRun.CustomParams hnil
  refine ⟨envs, ?_, loadBaseEnv_ok db stageRun base hbase, ?_, ?_⟩
  · unfold GetEnvBeforeStageRun
    rw [hbase]
    exact hassign
  · intro k v hk
    rw [hread, hk]
  · intro k hk
    rw [hread, hk]

theorem GetEnvBeforeStageRun_overlay_witness :
    ∃ envs, GetEnvBeforeStageRun sampleEnvDB sampleParamStage = .ok envs
      ∧ mapGet (mapRead envs) "TAG" = some (.str "v2")
      ∧ mapGet (mapRead envs) "REGION" = some (.str "eu")
      ∧ mapGet (mapRead envs) "COMMIT" = some (.str "abc") := by
  obtain ⟨envs, hok, -, hcp, hbase⟩ := GetEnvBeforeStageRun_overlay sampleEnvDB sampleParamStage
    (some [("TAG", .str "v1"), ("COMMIT", .str "abc")]) rfl (by simp)
  refine ⟨envs, hok, hcp "TAG" _ (by decide), hcp "REGION" _ (by decide), ?_⟩
  rw [hbase "COMMIT" (by decide)]
  decide

/-- C10, as stated, fails: for the second stage of a run whose first stage
was created without an `Env` map, the lookup of the previous stage succeeds
and finds the nil map, and the call does not return: the first write of a
`CustomParams` entry into that map panics. -/
theorem GetEnvBeforeStageRun_nil_env :
    (∃ run stages, CreatePipelineRun emptyDB sampleRun sampleNilEnvStages
        = .ok (sampleNilEnvDB, run, stages))
    ∧ sampleNilEnvStage ∈ sampleNilEnvDB.stages
    ∧ sampleNilEnvStage.CustomParams = [("TAG", .str "v2")]
    ∧ loadBaseEnv sampleNilEnvDB sampleNilEnvStage = .ok none
    ∧ GetEnvBeforeStageRun sampleNilEnvDB sampleNilEnvStage = .error ErrNilMapWrite :=
  ⟨⟨_, _, rfl⟩, by decide, rfl, rfl, rfl⟩

/-! ## Termination of the chain reconstruction -/

theorem linkedFrom_concat (acc : List PipelineRunStage) (p : Nat) (s : PipelineRunStage) :
    linkedFrom p (acc ++ [s]) ↔ linkedFrom p acc ∧ s.PrevStageRunId = endID p acc := by
  induction acc generalizing p with
  | nil => simp [linkedFrom, endID]
  | cons a rest ih =>
    show (a.PrevStageRunId = p ∧ linkedFrom a.ID (rest ++ [s]))
      ↔ (a.PrevStageRunId = p ∧ linkedFrom a.ID rest) ∧ s.PrevStageRunId = endID a.ID rest
    rw [ih, and_assoc]

theorem endID_concat (acc : List PipelineRunStage) (p : Nat) (s : PipelineRunStage) :
    endID p (acc ++ [s]) = s.ID := by
  induction acc generalizing p with
  | nil => rfl
  | cons a rest ih =>
    show endID a.ID (rest ++ [s]) = s.ID
    exact ih a.ID

/-- The reconstruction loop ends within the fuel that the stored stages not
yet collected leave, and what it has collected stays a duplicate-free list of
stored stages linked from 0. -/
theorem seqLoop_terminates (stored : List PipelineRunStage)
    (hnd : (stored.map PipelineRunStage.ID).Nodup) (hnz : ∀ s ∈ stored, s.ID ≠ 0)
    (fuel : Nat) (acc : List PipelineRunStage)
    (hlink : linkedFrom 0 acc) (hmem : ∀ x ∈ acc, x ∈ stored)
    (hacc : (acc.map PipelineRunStage.ID).Nodup)
    (hfuel : stored.length + 1 ≤ fuel + acc.length) :
    ∃ res, seqLoop fuel stored (endID 0 acc) acc = some res
      ∧ linkedFrom 0 res ∧ (∀ x ∈ res, x ∈ stored)
      ∧ (res.map PipelineRunStage.ID).Nodup := by
  have hlen : acc.length ≤ stored.length := by
    have hsub : acc.map PipelineRunStage.ID ⊆ stored.map PipelineRunStage.ID := by
      intro k hk
      obtain ⟨x, hx, rfl⟩ := List.mem_map.mp hk
      exact List.mem_map_of_mem _ (hmem x hx)
    have := (List.subperm_of_subset hacc hsub).length_le
    simpa using this
  induction fuel generalizing acc with
  | zero => omega
  | succ n ih =>
    cases hscan : seqScan stored (endID 0 acc) with
    | none => exact ⟨acc, by simp [seqLoop, hscan], hlink, hmem, hacc⟩
    | some s =>
      have hs : s ∈ stored := List.mem_of_find?_eq_some hscan
      have hsp : s.PrevStageRunId = endID 0 acc := by
        simpa using List.find?_some hscan
      have hzero : (0 : Nat) ∉ acc.map PipelineRunStage.ID := by
        intro h0
        obtain ⟨x, hx, hxid⟩ := List.mem_map.mp h0
        exact hnz x (hmem x hx) hxid
      have hfresh : s.ID ∉ acc.map PipelineRunStage.ID := by
        intro hin
        obtain ⟨x, hx, hxid⟩ := List.mem_map.mp hin
        have hxs : x = s := List.inj_on_of_nodup_map hnd (hmem x hx) hs hxid
        exact (linked_facts acc 0 hlink hacc hzero).2 x hx (hxs ▸ hsp)
      have hacc2 : ((acc ++ [s]).map PipelineRunStage.ID).Nodup := by
        rw [List.map_append, List.nodup_append]
        refine ⟨hacc, List.nodup_singleton _, ?_⟩
        intro a ha hb
        simp only [List.map_cons, List.map_nil, List.mem_singleton] at hb
        exact hfresh (hb ▸ ha)
      have hmem2 : ∀ x ∈ acc ++ [s], x ∈ stored := by
        intro x hx
        rcases List.mem_append.mp hx with hx | hx
        · exact hmem x hx
        · rw [List.mem_singleton.mp hx]
          exact hs
      have hlen2 : (acc ++ [s]).length ≤ stored.length := by
        have hsub : (acc ++ [s]).map PipelineRunStage.ID ⊆ stored.map PipelineRunStage.ID := by
          intro k hk
          obtain ⟨x, hx, rfl⟩ := List.mem_map.mp hk
          exact List.mem_map_of_mem _ (hmem2 x hx)
        have := (List.subperm_of_subset hacc2 hsub).length_le
        simpa using this
      have hrec := ih (acc ++ [s]) ((linkedFrom_concat acc 0 s).mpr ⟨hlink, hsp⟩) hmem2 hacc2
        (by simp only [List.length_append, List.length_singleton]; omega) hlen2
      rw [endID_concat] at hrec
      simpa [seqLoop, hscan] using hrec

/-- C14: for stored stages with pairwise distinct non-zero ids, whatever
their `PrevStageRunId` links, the reconstruction loop of `StagesRun` ends
within n+1 scans of the n stages, and its result holds only stored stages, no
stage twice, and is linked from 0: when non-empty its first stage has
`PrevStageRunId` 0, and every later stage has the id of the stage before it
as `PrevStageRunId`. -/
theorem seqLoop_bounded (stored : List PipelineRunStage) (fuel : Nat)
    (hnd : (stored.map PipelineRunStage.ID).Nodup) (hnz : ∀ s ∈ stored, s.ID ≠ 0)
    (hfuel : stored.length < fuel) :
    ∃ res, seqLoop fuel stored 0 [] = some res
      ∧ res.Nodup
      ∧ (∀ x ∈ res, x ∈ stored)
      ∧ res.length ≤ stored.length
      ∧ linkedFrom 0 res
      ∧ res.head?.map PipelineRunStage.PrevStageRunId = res.head?.map (fun _ => 0)
      ∧ (∀ i, i + 1 < res.length →
          res[i + 1]?.map PipelineRunStage.PrevStageRunId = res[i]?.map PipelineRunStage.ID) := by
  obtain ⟨res, hres, hlink, hmem, hids⟩ := seqLoop_terminates stored hnd hnz fuel []
    trivial (by simp) (by simp) (by simp; omega)
  have hlen : res.length ≤ stored.length := by
    have hsub : res.map PipelineRunStage.ID ⊆ stored.map PipelineRunStage.ID := by
      intro k hk
      obtain ⟨x, hx, rfl⟩ := List.mem_map.mp hk
      exact List.mem_map_of_mem _ (hmem x hx)
    have := (List.subperm_of_subset hids hsub).length_le
    simpa using this
  have hidx : ∀ (l : List PipelineRunStage) (p : Nat), linkedFrom p l →
      l.head?.map PipelineRunStage.PrevStageRunId = l.head?.map (fun _ => p)
      ∧ ∀ i, i + 1 < l.length →
          l[i + 1]?.map PipelineRunStage.PrevStageRunId = l[i]?.map PipelineRunStage.ID := by
    intro l
    induction l with
    | nil => intro p _; simp
    | cons a rest ih =>
      intro p hl
      obtain ⟨h1, h2⟩ := ih a.ID hl.2
      refine ⟨by simp [hl.1], ?_⟩
      intro i hi
      cases i with
      | zero =>
        cases rest with
        | nil => simp at hi
        | cons b rest2 => simpa using h1
      | succ j =>
        simp only [List.length_cons] at hi
        simpa using h2 j (by omega)
  exact ⟨res, hres, List.Nodup.of_map _ hids, hmem, hlen, hlink, (hidx res 0 hlink).1,
    (hidx res 0 hlink).2⟩

theorem seqLoop_bounded_witness :
    ∃ res, seqLoop 7 sampleTangle 0 [] = some res ∧ res.map PipelineRunStage.ID = [1, 3] := by
  obtain ⟨res, hres, -⟩ := seqLoop_bounded sampleTangle 7 (by decide) (by decide) (by decide)
  refine ⟨res, hres, ?_⟩
  have h2 : seqLoop 7 sampleTangle 0 [] = some [sampleTangle.get ⟨3, by decide⟩,
      sampleTangle.get ⟨1, by decide⟩] := by rfl
  rw [h2] at hres
  simp only [Option.some.injEq] at hres
  rw [← hres]
  rfl

/-! ## Properties of UpdateStageJobRunParams -/

/-- C13: when the store refuses the save of the second job, the call returns
the error, yet the store is not as before the call: the stage row has the new
`custom_params` and the first job row has the new `params`. -/
theorem UpdateStageJobRunParams_partial_write :
    (UpdateStageJobRunParams failSecondJob sampleDB sampleNewParamsStage
        sampleNewParamsJobs).2 = some ErrSaveFailed
    ∧ (UpdateStageJobRunParams failSecondJob sampleDB sampleNewParamsStage
        sampleNewParamsJobs).1 ≠ sampleDB
    ∧ ((UpdateStageJobRunParams failSecondJob sampleDB sampleNewParamsStage
        sampleNewParamsJobs).1.stages.map PipelineRunStage.CustomParams)
        = [[("TAG", .str "v2")], []]
    ∧ sampleDB.stages.map PipelineRunStage.CustomParams = [[], []]
    ∧ ((UpdateStageJobRunParams failSecondJob sampleDB sampleNewParamsStage
        sampleNewParamsJobs).1.jobs.map PipelineRunJob.Params)
        = [[("A", .num 1)], [], []]
    ∧ sampleDB.jobs.map PipelineRunJob.Params = [[], [], []] := by
  decide

/-! ## A stage whose jobs are all OK -/

theorem statusLoop_all_ok (jobs : List PipelineRunJob) (status : String)
    (hok : ∀ j ∈ jobs, j.Status = PipelineStatusOK) (hne : jobs ≠ [])
    (hst : status ≠ PipelineStatusError) :
    statusLoop jobs status = .finished PipelineStatusOK := by
  induction jobs generalizing status with
  | nil => exact absurd rfl hne
  | cons j rest ih =>
    have hj : j.Status = PipelineStatusOK := hok j (List.mem_cons_self _ _)
    have hOD : PipelineStatusOK ≠ PipelineStatusDoing := by decide
    have hOE : PipelineStatusOK ≠ PipelineStatusError := by decide
    unfold statusLoop
    simp only [hj, hOD, hOE, if_false, true_and, hst, ne_eq, not_false_eq_true, if_true]
    cases rest with
    | nil => rfl
    | cons j2 rest2 =>
      exact ih _ (fun x hx => hok x (List.mem_cons_of_mem _ hx)) (by simp) hOE

/-- The status of the stage record when the request has no explicit status
and has a job payload: the status derived from the reloaded jobs. -/
theorem resolveStageRun_derived (jobs : List PipelineRunJob) (obj : UpdateStageObj)
    (stage : PipelineRunStage) (hstatus : obj.StageRunStatus = "")
    (hjobs : obj.StageRunJobs.isSome = true) :
    (resolveStageRun jobs obj stage).Status
      = GetStageRunStatus { stage with
          Jobs := jobs.filter (fun j => decide (j.StageRunId = obj.StageRunId)) } := by
  unfold resolveStageRun
  simp [hstatus, hjobs]

/-- C12: a successful `UpdatePipelineStageRun` with a job payload and no
explicit status, for a stage whose jobs after the saves of the payload are a
non-empty list of OK jobs, leaves the stage with status OK and the run with
status Doing, both as returned and as stored; every stage row with another id
is as before the call (so are the other stages of the run), and so is every
job row whose id is no id of the saved payload records. The run is the run of
the stage: the row under the `PipelineRunId` of the stage row (a run row has a
non-zero id) is the returned run, it differs from the row before the call in
status and update time only, and no other run row is touched. -/
theorem UpdatePipelineStageRun_all_ok (fuel now : Nat) (db : DB) (obj : UpdateStageObj)
    (payload : List PipelineRunJob) (res : UpdateResult)
    (h : UpdatePipelineStageRun fuel now db (some obj) = some (.ok res))
    (hstatus : obj.StageRunStatus = "")
    (hjobs : obj.StageRunJobs = some payload)
    (hne : (saveJobs db.jobs payload).filter
        (fun j => decide (j.StageRunId = obj.StageRunId)) ≠ [])
    (hok : ∀ j ∈ (saveJobs db.jobs payload).filter
        (fun j => decide (j.StageRunId = obj.StageRunId)), j.Status = PipelineStatusOK) :
    res.stageRun.Status = PipelineStatusOK
    ∧ res.pipelineRun.Status = PipelineStatusDoing
    ∧ res.stageRun.ID = obj.StageRunId
    ∧ dbFirst (fun s => decide (s.ID = obj.StageRunId)) res.db.stages = some res.stageRun.row
    ∧ dbFirst (fun r => decide (r.ID = res.pipelineRun.ID)) res.db.runs = some res.pipelineRun
    ∧ res.db.stages
        = db.stages.map (fun s => if s.ID = obj.StageRunId then res.stageRun.row else s)
    ∧ res.db.jobs.filter
          (fun r => decide (r.ID ∉ (saveJobsRecords db.jobs payload).map PipelineRunJob.ID))
        = db.jobs.filter
          (fun r => decide (r.ID ∉ (saveJobsRecords db.jobs payload).map PipelineRunJob.ID))
    ∧ (∀ r ∈ db.jobs, r.ID ∉ payload.map PipelineRunJob.ID → r ∈ res.db.jobs)
    ∧ (∃ stage0 run0,
        dbFirst (fun s => decide (s.ID = obj.StageRunId)) db.stages = some stage0
        ∧ res.stageRun.PipelineRunId = stage0.PipelineRunId
        ∧ dbFirst (fun r => decide (r.ID = stage0.PipelineRunId)) db.runs = some run0
        ∧ (stage0.PipelineRunId ≠ 0 →
            res.pipelineRun.ID = stage0.PipelineRunId
            ∧ res.pipelineRun
                = { run0 with Status := PipelineStatusDoing, UpdateTime := now }
            ∧ dbFirst (fun r => decide (r.ID = stage0.PipelineRunId)) res.db.runs
                = some res.pipelineRun
            ∧ res.db.runs = db.runs.map
                (fun r => if r.ID = stage0.PipelineRunId then res.pipelineRun else r))) := by
  obtain ⟨obj1, harg, hid0, htx⟩ := UpdatePipelineStageRun_ok h
  simp only [Option.some.injEq] at harg
  subst harg
  obtain ⟨stage0, run0, hfs, hfr, hrun, hruns, hjobtbl, hstage, hstages⟩ :=
    updateStageRunTx_ok htx
  have htbl : savedJobTable db obj = saveJobs db.jobs payload := by
    unfold savedJobTable
    rw [hjobs]
  rw [htbl] at hstage hstages hjobtbl
  have hs0mem : stage0 ∈ db.stages := List.mem_of_find?_eq_some hfs
  have hs0id : stage0.ID = obj.StageRunId := by simpa using List.find?_some hfs
  obtain ⟨hrid, -, -⟩ := resolveStageRun_fields (saveJobs db.jobs payload) obj stage0
  have hsave := dbSave_existing PipelineRunStage.ID PipelineRunStage.withID stage0
    ({ resolveStageRun (saveJobs db.jobs payload) obj stage0 with
        UpdateTime := now } : PipelineRunStage).row db.stages hs0mem hrid
    (by rw [hs0id]; exact hid0)
  rw [hsave] at hstage hstages
  have hderived := resolveStageRun_derived (saveJobs db.jobs payload) obj stage0 hstatus
    (by rw [hjobs]; rfl)
  have hst : res.stageRun.Status = PipelineStatusOK := by
    rw [hstage]
    show (resolveStageRun (saveJobs db.jobs payload) obj stage0).Status = PipelineStatusOK
    rw [hderived]
    unfold GetStageRunStatus
    rw [statusLoop_all_ok _ "" hok hne (by decide)]
    rfl
  have hsid : res.stageRun.ID = obj.StageRunId := by
    rw [hstage]
    show (resolveStageRun (saveJobs db.jobs payload) obj stage0).ID = obj.StageRunId
    rw [hrid, hs0id]
  have hrowEq : res.stageRun.row
      = ({ resolveStageRun (saveJobs db.jobs payload) obj stage0 with
          UpdateTime := now } : PipelineRunStage).row := by
    rw [hstage]
    rfl
  have hstagesEq : res.db.stages
      = db.stages.map (fun s => if s.ID = obj.StageRunId then res.stageRun.row else s) := by
    rw [hstages, hrowEq]
    apply List.map_congr_left
    intro s _
    have : (({ resolveStageRun (saveJobs db.jobs payload) obj stage0 with
        UpdateTime := now } : PipelineRunStage).row).ID = obj.StageRunId := by
      show (resolveStageRun (saveJobs db.jobs payload) obj stage0).ID = obj.StageRunId
      rw [hrid, hs0id]
    rw [this]
  have hframe := saveJobs_filter
    (fun k => decide (k ∉ (saveJobsRecords db.jobs payload).map PipelineRunJob.ID))
    payload db.jobs (by
      intro rec hrec
      simp only [decide_eq_false_iff_not, not_not]
      exact List.mem_map_of_mem _ hrec)
  have hrunStatus : res.pipelineRun.Status = PipelineStatusDoing := by
    rw [hrun, (dbSave_run_fields _ _).1, hst]
    have hOE : PipelineStatusOK ≠ PipelineStatusError := by decide
    have hOD : PipelineStatusOK ≠ PipelineStatusDoing := by decide
    show runStatusFor PipelineStatusOK run0.Status = PipelineStatusDoing
    simp [runStatusFor, hOE, hOD]
  refine ⟨hst, hrunStatus, hsid, ?_, ?_, hstagesEq, ?_, ?_, ?_⟩
  · rw [hstagesEq]
    have := find_map_replace PipelineRunStage.ID res.stageRun.row db.stages
      ⟨stage0, hs0mem, by rw [hs0id]; exact hsid.symm⟩
    have hk : res.stageRun.row.ID = obj.StageRunId := hsid
    rw [hk] at this
    exact this
  · rw [hruns]
    conv_lhs => rw [hrun]
    conv_rhs => rw [hrun]
    exact find_dbSave PipelineRun.ID PipelineRun.withID run_key_set _ _
  · rw [hjobtbl]
    exact hframe
  · intro r hr hnot
    have hnrec : r.ID ∉ (saveJobsRecords db.jobs payload).map PipelineRunJob.ID :=
      fun hin => hnot (saveJobsRecords_old_key payload db.jobs r.ID
        (List.mem_map_of_mem _ hr) hin)
    have hin : r ∈ db.jobs.filter
        (fun r => decide (r.ID ∉ (saveJobsRecords db.jobs payload).map PipelineRunJob.ID)) :=
      List.mem_filter.mpr ⟨hr, by simpa using hnrec⟩
    rw [← hframe, ← hjobtbl] at hin
    exact (List.mem_filter.mp hin).1
  · obtain ⟨run1, hfind1, -, hstatus1, -, htie⟩ := updateStageRunTx_run htx
    obtain ⟨stage1, hfs1, -, -, hspid, -, -, -⟩ := updateStageRunTx_stage htx hid0
    rw [hspid] at hfind1 htie
    refine ⟨stage1, run1, hfs1, hspid, hfind1, ?_⟩
    intro hnz
    obtain ⟨hrunEq, hrid, hrunsEq⟩ := htie hnz
    have hdoing : runStatusFor res.stageRun.Status run1.Status = PipelineStatusDoing := by
      rw [← hstatus1]
      exact hrunStatus
    rw [hdoing] at hrunEq
    refine ⟨hrid, hrunEq, ?_, hrunsEq⟩
    rw [hrunsEq]
    have := find_map_replace PipelineRun.ID res.pipelineRun db.runs
      ⟨run1, List.mem_of_find?_eq_some hfind1, by
        rw [show res.pipelineRun.ID = stage1.PipelineRunId from hrid]
        simpa using List.find?_some hfind1⟩
    rw [show res.pipelineRun.ID = stage1.PipelineRunId from hrid] at this
    exact this

theorem UpdatePipelineStageRun_all_ok_witness :
    ∃ res, UpdatePipelineStageRun 3 9 sampleHalfDoneDB (some sampleSecondUpdate) = some (.ok res)
      ∧ res.stageRun.Status = PipelineStatusOK
      ∧ res.pipelineRun.Status = PipelineStatusDoing
      ∧ res.db.stages.map PipelineRunStage.Status = ["OK", "Wait"]
      ∧ res.db.runs.map PipelineRun.Status = ["Doing"] := by
  refine ⟨_, rfl, ?_, ?_, rfl, rfl⟩
  · exact (UpdatePipelineStageRun_all_ok 3 9 sampleHalfDoneDB sampleSecondUpdate _ _ rfl rfl rfl
      (by decide) (by decide)).1
  · exact (UpdatePipelineStageRun_all_ok 3 9 sampleHalfDoneDB sampleSecondUpdate _ _ rfl rfl rfl
      (by decide) (by decide)).2.1

/-! ## Saving the same records again -/

section Tables

variable {α : Type} (key : α → Nat) (setKey : Nat → α → α)

theorem mem_dbInsert (row : α) (rows : List α) (r : α) (hr : r ∈ dbInsert key row rows) :
    r = row ∨ r ∈ rows := by
  induction rows with
  | nil =>
    simp only [dbInsert, List.mem_singleton] at hr
    exact Or.inl hr
  | cons a rest ih =>
    unfold dbInsert at hr
    split_ifs at hr
    · rcases List.mem_cons.mp hr with h | h
      · exact Or.inl h
      · exact Or.inr h
    · rcases List.mem_cons.mp hr with h | h
      · exact Or.inr (h ▸ List.mem_cons_self _ _)
      · rcases ih h with h2 | h2
        · exact Or.inl h2
        · exact Or.inr (List.mem_cons_of_mem _ h2)

/-- After a `Save` every row under the key of the saved record is that record. -/
theorem dbSave_rows_with_key (hkey : ∀ k a, key (setKey k a) = k) (row : α) (rows : List α)
    (r : α) (hr : r ∈ (dbSave key setKey row rows).1)
    (hk : key r = key (dbSave key setKey row rows).2) :
    r = (dbSave key setKey row rows).2 := by
  unfold dbSave at hr hk ⊢
  split_ifs at hr hk ⊢ with h0 hany
  · simp only [dbCreateAuto, hkey, List.mem_append, List.mem_singleton] at hr hk ⊢
    rcases hr with hr | hr
    · exact absurd (hk ▸ List.mem_map_of_mem key hr) (nextKey_not_mem _)
    · exact hr
  · obtain ⟨r0, _, hr0⟩ := List.mem_map.mp hr
    by_cases hc : key r0 = key row
    · rw [if_pos hc] at hr0
      exact hr0.symm
    · rw [if_neg hc] at hr0
      exact absurd (hr0 ▸ hk) hc
  · rcases mem_dbInsert key row rows r hr with h | h
    · exact h
    · exfalso
      apply hany
      simp only [List.any_eq_true, decide_eq_true_eq]
      exact ⟨r, h, hk⟩

/-- The key of a saved record is not zero and is a key of the table. -/
theorem dbSave_record_mem (hkey : ∀ k a, key (setKey k a) = k) (row : α) (rows : List α) :
    key (dbSave key setKey row rows).2 ≠ 0
    ∧ key (dbSave key setKey row rows).2 ∈ (dbSave key setKey row rows).1.map key := by
  refine ⟨?_, ?_⟩
  · unfold dbSave
    split_ifs with h0 hany
    · simp only [dbCreateAuto, hkey]
      exact (nextKey_pos _).ne'
    · exact h0
    · exact h0
  · exact List.mem_map_of_mem key
      (List.mem_of_find?_eq_some (find_dbSave key setKey hkey row rows))

/-- The row found under a key after a record with that key has been saved over
the row found before: the record, or with key zero still the row found before. -/
theorem find_after_dbSave (row0 row : α) (rows : List α) (x : Nat)
    (hf : rows.find? (fun r => decide (key r = x)) = some row0) (hk : key row = x) :
    (dbSave key setKey row rows).1.find? (fun r => decide (key r = x))
      = some (if x = 0 then row0 else row) := by
  have hmem : row0 ∈ rows := List.mem_of_find?_eq_some hf
  have hk0 : key row0 = x := by simpa using List.find?_some hf
  by_cases hx : x = 0
  · unfold dbSave
    rw [if_pos (hk.trans hx), if_pos hx]
    simp only [dbCreateAuto]
    rw [List.find?_append, hf]
    rfl
  · rw [dbSave_existing key setKey row0 row rows hmem (hk.trans hk0.symm) (by rw [hk0]; exact hx),
      if_neg hx]
    have := find_map_replace key row rows ⟨row0, hmem, hk0.trans hk.symm⟩
    rw [hk] at this
    show (rows.map (fun r => if key r = key row then row else r)).find?
      (fun r => decide (key r = x)) = some row
    rw [hk]
    exact this

end Tables

theorem lastWithKey_none (recs : List PipelineRunJob) (k : Nat)
    (h : lastWithKey recs k = none) : k ∉ recs.map PipelineRunJob.ID := by
  induction recs with
  | nil => simp
  | cons j rest ih =>
    have e : lastWithKey (j :: rest) k
        = match lastWithKey rest k with
          | some j1 => some j1
          | none => if j.ID = k then some j else none := rfl
    rw [e] at h
    cases hrest : lastWithKey rest k with
    | some j1 => simp [hrest] at h
    | none =>
      simp only [hrest] at h
      have hjk : j.ID ≠ k := by
        intro hjk
        simp [hjk] at h
      rw [List.map_cons, List.mem_cons]
      rintro (hk | hk)
      · exact hjk hk.symm
      · exact ih hrest hk

theorem saveJobs_keys (runJobs tbl : List PipelineRunJob) (k : Nat)
    (hk : k ∈ tbl.map PipelineRunJob.ID) : k ∈ (saveJobs tbl runJobs).map PipelineRunJob.ID := by
  induction runJobs generalizing tbl with
  | nil => exact hk
  | cons j rest ih =>
    rw [saveJobs_cons]
    exact ih _ (dbSave_keys PipelineRunJob.ID PipelineRunJob.withID j tbl k hk)

/-- After the save loop the records it leaves have non-zero keys that the
table holds, and every row under the key of a record is the last record with
that key. -/
theorem saveJobs_settled (runJobs tbl : List PipelineRunJob) :
    (∀ j ∈ saveJobsRecords tbl runJobs,
        j.ID ≠ 0 ∧ j.ID ∈ (saveJobs tbl runJobs).map PipelineRunJob.ID)
    ∧ (∀ r ∈ saveJobs tbl runJobs, ∀ j,
        lastWithKey (saveJobsRecords tbl runJobs) r.ID = some j → r = j) := by
  induction runJobs generalizing tbl with
  | nil =>
    refine ⟨by simp [saveJobsRecords], ?_⟩
    intro r _ j hj
    simp [saveJobsRecords, lastWithKey] at hj
  | cons j0 rest ih =>
    obtain ⟨ih1, ih2⟩ := ih (dbSave PipelineRunJob.ID PipelineRunJob.withID j0 tbl).1
    obtain ⟨hnz, hin⟩ := dbSave_record_mem PipelineRunJob.ID PipelineRunJob.withID
      job_key_set j0 tbl
    rw [saveJobs_cons]
    have hrecs : saveJobsRecords tbl (j0 :: rest)
        = (dbSave PipelineRunJob.ID PipelineRunJob.withID j0 tbl).2
          :: saveJobsRecords (dbSave PipelineRunJob.ID PipelineRunJob.withID j0 tbl).1 rest :=
      rfl
    rw [hrecs]
    refine ⟨?_, ?_⟩
    · intro j hj
      rcases List.mem_cons.mp hj with h | h
      · rw [h]
        exact ⟨hnz, saveJobs_keys rest _ _ hin⟩
      · exact ih1 j h
    · intro r hr j hj
      have e : lastWithKey ((dbSave PipelineRunJob.ID PipelineRunJob.withID j0 tbl).2
            :: saveJobsRecords (dbSave PipelineRunJob.ID PipelineRunJob.withID j0 tbl).1 rest)
            r.ID
          = match lastWithKey
              (saveJobsRecords (dbSave PipelineRunJob.ID PipelineRunJob.withID j0 tbl).1 rest)
              r.ID with
            | some j1 => some j1
            | none => if (dbSave PipelineRunJob.ID PipelineRunJob.withID j0 tbl).2.ID = r.ID
                then some (dbSave PipelineRunJob.ID PipelineRunJob.withID j0 tbl).2 else none :=
        rfl
      rw [e] at hj
      cases hrest : lastWithKey
          (saveJobsRecords (dbSave PipelineRunJob.ID PipelineRunJob.withID j0 tbl).1 rest)
          r.ID with
      | some j1 =>
        simp only [hrest, Option.some.injEq] at hj
        exact hj ▸ ih2 r hr j1 hrest
      | none =>
        simp only [hrest] at hj
        split_ifs at hj with hkey
        simp only [Option.some.injEq] at hj
        rw [← hj]
        have hnot := lastWithKey_none _ _ hrest
        have hframe := saveJobs_filter
          (fun k => decide (k ∉ (saveJobsRecords
            (dbSave PipelineRunJob.ID PipelineRunJob.withID j0 tbl).1 rest).map
              PipelineRunJob.ID))
          rest (dbSave PipelineRunJob.ID PipelineRunJob.withID j0 tbl).1 (by
            intro rec hrec
            simp only [decide_eq_false_iff_not, not_not]
            exact List.mem_map_of_mem _ hrec)
        have hrin : r ∈ (saveJobs (dbSave PipelineRunJob.ID PipelineRunJob.withID j0 tbl).1
            rest).filter (fun r => decide (r.ID ∉ (saveJobsRecords
              (dbSave PipelineRunJob.ID PipelineRunJob.withID j0 tbl).1 rest).map
                PipelineRunJob.ID)) :=
          List.mem_filter.mpr ⟨hr, by simpa using hnot⟩
        rw [hframe] at hrin
        exact dbSave_rows_with_key PipelineRunJob.ID PipelineRunJob.withID job_key_set j0 tbl r
          (List.mem_filter.mp hrin).1 hkey.symm

/-- Saving records whose non-zero keys the table holds overwrites every row
by the last record with its key. -/
theorem saveJobs_replay (recs tbl : List PipelineRunJob)
    (h : ∀ j ∈ recs, j.ID ≠ 0 ∧ j.ID ∈ tbl.map PipelineRunJob.ID) :
    saveJobs tbl recs = tbl.map (fun r => (lastWithKey recs r.ID).getD r) := by
  induction recs generalizing tbl with
  | nil =>
    simp [saveJobs, lastWithKey]
  | cons j rest ih =>
    obtain ⟨hnz, hin⟩ := h j (List.mem_cons_self _ _)
    obtain ⟨r0, hr0, hk0⟩ := List.mem_map.mp hin
    have hsave := dbSave_existing PipelineRunJob.ID PipelineRunJob.withID r0 j tbl hr0 hk0.symm
      (by rw [hk0]; exact hnz)
    have hkeys : (tbl.map (fun r => if r.ID = j.ID then j else r)).map PipelineRunJob.ID
        = tbl.map PipelineRunJob.ID := by
      rw [List.map_map]
      apply List.map_congr_left
      intro r _
      simp only [Function.comp]
      split_ifs with hc
      · exact hc.symm
      · rfl
    rw [saveJobs_cons, hsave, ih _ (fun x hx => by
      rw [hkeys]
      exact h x (List.mem_cons_of_mem _ hx)), List.map_map]
    apply List.map_congr_left
    intro r _
    have e : lastWithKey (j :: rest) r.ID
        = match lastWithKey rest r.ID with
          | some j1 => some j1
          | none => if j.ID = r.ID then some j else none := rfl
    simp only [Function.comp]
    rw [e]
    by_cases hc : r.ID = j.ID
    · rw [if_pos hc, hc]
      cases lastWithKey rest j.ID <;> simp
    · rw [if_neg hc]
      cases lastWithKey rest r.ID with
      | some j1 => rfl
      | none =>
        have hc2 : ¬ j.ID = r.ID := fun h => hc h.symm
        simp only [hc2, if_false]

/-- Saving the records of a save loop again leaves the table as it is. -/
theorem saveJobs_again (runJobs tbl : List PipelineRunJob) :
    saveJobs (saveJobs tbl runJobs) (saveJobsRecords tbl runJobs) = saveJobs tbl runJobs := by
  obtain ⟨h1, h2⟩ := saveJobs_settled runJobs tbl
  rw [saveJobs_replay _ _ h1]
  conv_rhs => rw [← List.map_id (saveJobs tbl runJobs)]
  apply List.map_congr_left
  intro r hr
  cases hl : lastWithKey (saveJobsRecords tbl runJobs) r.ID with
  | none => rfl
  | some j => exact (h2 r hr j hl).symm

/-! ## Idempotence of UpdatePipelineStageRun -/

theorem runStatusFor_idem (stageStatus runStatus : String) :
    runStatusFor stageStatus (runStatusFor stageStatus runStatus)
      = runStatusFor stageStatus runStatus := by
  unfold runStatusFor
  split_ifs <;> rfl

/-- Deriving the status again from the same jobs, with the derived status as
stored status, gives the derived status. -/
theorem GetStageRunStatus_again (s s1 : PipelineRunStage) (jobs : List PipelineRunJob)
    (h : s1.Status = GetStageRunStatus { s with Jobs := jobs }) :
    GetStageRunStatus { s1 with Jobs := jobs } = GetStageRunStatus { s with Jobs := jobs } := by
  unfold GetStageRunStatus at h ⊢
  simp only at h ⊢
  cases hl : statusLoop jobs "" with
  | returned v => rfl
  | finished st =>
    simp only [hl] at h ⊢
    by_cases hst : st = ""
    · simp only [hst, if_true] at h ⊢
      exact h
    · simp only [hst, if_false]

theorem saveJobsRecords_keyed (runJobs tbl : List PipelineRunJob)
    (h : ∀ j ∈ runJobs, j.ID ≠ 0) : saveJobsRecords tbl runJobs = runJobs := by
  induction runJobs generalizing tbl with
  | nil => rfl
  | cons j rest ih =>
    have hj : j.ID ≠ 0 := h j (List.mem_cons_self _ _)
    have hrec : (dbSave PipelineRunJob.ID PipelineRunJob.withID j tbl).2 = j := by
      unfold dbSave
      split_ifs with h0
      · exact absurd h0 hj
      · rfl
      · rfl
    simp only [saveJobsRecords, hrec, ih _ (fun x hx => h x (List.mem_cons_of_mem _ hx))]

/-- A successful `UpdatePipelineStageRun` with a job payload and no explicit
status, followed with no change in between by a second successful call with
the request as the first call has left it (the same records, in which `Save`
has written the keys of the jobs it created; the very same request when every
job of the payload came with a key), yields after the second call the stage
status and the run status of the first call, also when the jobs give no
signal and the stored stage status is used; the job table is the same too,
both calls are about the same stage and the same run, and a run row with a
non-zero id is the run returned by both. -/
theorem UpdatePipelineStageRun_replay (fuel1 now1 fuel2 now2 : Nat) (db : DB)
    (obj : UpdateStageObj) (payload : List PipelineRunJob) (res1 res2 : UpdateResult)
    (hstatus : obj.StageRunStatus = "")
    (hjobs : obj.StageRunJobs = some payload)
    (h1 : UpdatePipelineStageRun fuel1 now1 db (some obj) = some (.ok res1))
    (h2 : UpdatePipelineStageRun fuel2 now2 res1.db (some (requestAfter db obj))
      = some (.ok res2)) :
    res2.stageRun.Status = res1.stageRun.Status
    ∧ res2.pipelineRun.Status = res1.pipelineRun.Status
    ∧ res2.db.jobs = res1.db.jobs
    ∧ ((∀ j ∈ payload, j.ID ≠ 0) → requestAfter db obj = obj)
    ∧ res2.stageRun.ID = res1.stageRun.ID
    ∧ res2.stageRun.PipelineRunId = res1.stageRun.PipelineRunId
    ∧ (res1.stageRun.PipelineRunId ≠ 0 →
        res1.pipelineRun.ID = res1.stageRun.PipelineRunId
        ∧ res2.pipelineRun.ID = res1.stageRun.PipelineRunId) := by
  obtain ⟨o1, harg1, hid0, htx1⟩ := UpdatePipelineStageRun_ok h1
  simp only [Option.some.injEq] at harg1
  subst harg1
  obtain ⟨o2, harg2, -, htx2⟩ := UpdatePipelineStageRun_ok h2
  simp only [Option.some.injEq] at harg2
  subst harg2
  obtain ⟨stage0, run0, hfs, hfr, hrun, hruns, hjobtbl, hstage, hstages⟩ :=
    updateStageRunTx_ok htx1
  obtain ⟨stage0', run0', hfs', hfr', hrun', -, hjobtbl', hstage', -⟩ :=
    updateStageRunTx_ok htx2
  -- the request of the second call
  have hreqId : (requestAfter db obj).StageRunId = obj.StageRunId := rfl
  have hreqStatus : (requestAfter db obj).StageRunStatus = "" := hstatus
  have hreqJobs : (requestAfter db obj).StageRunJobs = some (saveJobsRecords db.jobs payload) := by
    simp [requestAfter, hjobs]
  -- the job tables
  have htbl1 : savedJobTable db obj = saveJobs db.jobs payload := by
    unfold savedJobTable
    rw [hjobs]
  have htbl2 : savedJobTable res1.db (requestAfter db obj) = saveJobs db.jobs payload := by
    unfold savedJobTable
    rw [hreqJobs, hjobtbl, htbl1]
    exact saveJobs_again payload db.jobs
  rw [htbl1] at hstage hstages hjobtbl
  rw [htbl2] at hstage' hjobtbl'
  -- the stage row the second call reads
  have hs0mem : stage0 ∈ db.stages := List.mem_of_find?_eq_some hfs
  have hs0id : stage0.ID = obj.StageRunId := by simpa using List.find?_some hfs
  obtain ⟨hrid, hrpid, -⟩ := resolveStageRun_fields (saveJobs db.jobs payload) obj stage0
  have hfound := find_after_dbSave PipelineRunStage.ID PipelineRunStage.withID stage0
    ({ resolveStageRun (saveJobs db.jobs payload) obj stage0 with
        UpdateTime := now1 } : PipelineRunStage).row db.stages obj.StageRunId hfs
    (by
      show (resolveStageRun (saveJobs db.jobs payload) obj stage0).ID = obj.StageRunId
      rw [hrid, hs0id])
  rw [if_neg hid0, ← hstages] at hfound
  rw [hreqId] at hfs'
  have hs0' : stage0' = ({ resolveStageRun (saveJobs db.jobs payload) obj stage0 with
        UpdateTime := now1 } : PipelineRunStage).row := by
    have := hfs'.symm.trans hfound
    simpa using this
  -- the stage statuses
  have hS1 : res1.stageRun.Status
      = GetStageRunStatus { stage0 with
          Jobs := (saveJobs db.jobs payload).filter
            (fun j => decide (j.StageRunId = obj.StageRunId)) } := by
    rw [hstage]
    exact resolveStageRun_derived (saveJobs db.jobs payload) obj stage0 hstatus
      (by rw [hjobs]; rfl)
  have hS2 : res2.stageRun.Status
      = GetStageRunStatus { stage0' with
          Jobs := (saveJobs db.jobs payload).filter
            (fun j => decide (j.StageRunId = obj.StageRunId)) } := by
    rw [hstage']
    exact resolveStageRun_derived (saveJobs db.jobs payload) (requestAfter db obj) stage0'
      hreqStatus (by rw [hreqJobs]; rfl)
  have hstored : stage0'.Status = res1.stageRun.Status := by
    rw [hs0', hstage]
    rfl
  have hSS : res2.stageRun.Status = res1.stageRun.Status := by
    rw [hS2, hS1]
    exact GetStageRunStatus_again stage0 stage0' _ (hstored.trans hS1)
  -- the runs
  have hP1 : res1.stageRun.PipelineRunId = stage0.PipelineRunId := by
    rw [hstage]
    exact hrpid
  have hP2 : res2.stageRun.PipelineRunId = stage0.PipelineRunId := by
    rw [hstage']
    show (resolveStageRun (saveJobs db.jobs payload) (requestAfter db obj)
      stage0').PipelineRunId = stage0.PipelineRunId
    rw [(resolveStageRun_fields _ _ _).2.1, hs0']
    exact hrpid
  rw [hP1] at hfr
  rw [hP2] at hfr'
  have hr0id : run0.ID = stage0.PipelineRunId := by simpa using List.find?_some hfr
  have hfoundRun := find_after_dbSave PipelineRun.ID PipelineRun.withID run0
    { run0 with Status := runStatusFor res1.stageRun.Status run0.Status, UpdateTime := now1 }
    db.runs stage0.PipelineRunId hfr hr0id
  rw [← hruns] at hfoundRun
  have hrun0' : run0' = if stage0.PipelineRunId = 0 then run0
      else { run0 with Status := runStatusFor res1.stageRun.Status run0.Status,
                       UpdateTime := now1 } := by
    have := hfr'.symm.trans hfoundRun
    simpa using this
  have hR1 : res1.pipelineRun.Status = runStatusFor res1.stageRun.Status run0.Status := by
    rw [hrun]
    exact (dbSave_run_fields _ _).1
  have hR2 : res2.pipelineRun.Status = runStatusFor res2.stageRun.Status run0'.Status := by
    rw [hrun']
    exact (dbSave_run_fields _ _).1
  have hid1 : res1.stageRun.ID = obj.StageRunId := (updateStageRunTx_stage htx1 hid0).choose_spec.2.2.1
  have hid2 : res2.stageRun.ID = obj.StageRunId :=
    (updateStageRunTx_stage htx2 (by rw [hreqId]; exact hid0)).choose_spec.2.2.1
  refine ⟨hSS, ?_, ?_, ?_, hid2.trans hid1.symm, hP2.trans hP1.symm, ?_⟩
  · rw [hR2, hR1, hSS, hrun0']
    split_ifs
    · rfl
    · exact runStatusFor_idem _ _
  · rw [hjobtbl', hjobtbl]
  · intro hkeyed
    unfold requestAfter
    rw [hjobs]
    simp only [Option.map_some']
    rw [saveJobsRecords_keyed payload db.jobs hkeyed, ← hjobs]
  · intro hnz
    obtain ⟨ra, -, -, -, -, htie1⟩ := updateStageRunTx_run htx1
    obtain ⟨rb, -, -, -, -, htie2⟩ := updateStageRunTx_run htx2
    refine ⟨(htie1 hnz).2.1, ?_⟩
    have hnz2 : res2.stageRun.PipelineRunId ≠ 0 := by
      rw [hP2, ← hP1]
      exact hnz
    rw [(htie2 hnz2).2.1, hP2, ← hP1]

/-- The replay on a payload that holds a job without a key. -/
theorem UpdatePipelineStageRun_replay_keyless :
    ∃ res1 res2,
      UpdatePipelineStageRun 3 9 sampleDB (some sampleNewJobUpdate) = some (.ok res1)
      ∧ UpdatePipelineStageRun 4 10 res1.db (some (requestAfter sampleDB sampleNewJobUpdate))
          = some (.ok res2)
      ∧ res1.stageRun.Status = PipelineStatusOK
      ∧ res2.stageRun.Status = PipelineStatusOK
      ∧ res2.pipelineRun.Status = res1.pipelineRun.Status := by
  refine ⟨_, _, rfl, rfl, rfl, rfl, ?_⟩
  exact (UpdatePipelineStageRun_replay 3 9 4 10 sampleDB sampleNewJobUpdate _ _ _
    rfl rfl rfl rfl).2.1

/-- C11, as amended: for every store and every request with a job payload and
no explicit status in which every job has a key (a non-zero `ID`), two
successful `UpdatePipelineStageRun` calls in a row with the same request, with
no change in between, yield after the second call the stage status and the
run status of the first call, also when the jobs give no signal and the
stored stage status is used; the job table after the second call is that
after the first, both calls return the same stage and the same run. -/
theorem UpdatePipelineStageRun_idempotent (fuel1 now1 fuel2 now2 : Nat) (db : DB)
    (obj : UpdateStageObj) (payload : List PipelineRunJob) (res1 res2 : UpdateResult)
    (hstatus : obj.StageRunStatus = "")
    (hjobs : obj.StageRunJobs = some payload)
    (hkeyed : ∀ j ∈ payload, j.ID ≠ 0)
    (h1 : UpdatePipelineStageRun fuel1 now1 db (some obj) = some (.ok res1))
    (h2 : UpdatePipelineStageRun fuel2 now2 res1.db (some obj) = some (.ok res2)) :
    res2.stageRun.Status = res1.stageRun.Status
    ∧ res2.pipelineRun.Status = res1.pipelineRun.Status
    ∧ res2.db.jobs = res1.db.jobs
    ∧ res2.stageRun.ID = res1.stageRun.ID
    ∧ res2.stageRun.PipelineRunId = res1.stageRun.PipelineRunId
    ∧ (res1.stageRun.PipelineRunId ≠ 0 →
        res1.pipelineRun.ID = res1.stageRun.PipelineRunId
        ∧ res2.pipelineRun.ID = res1.stageRun.PipelineRunId) := by
  have hreq : requestAfter db obj = obj := by
    unfold requestAfter
    rw [hjobs]
    simp only [Option.map_some']
    rw [saveJobsRecords_keyed payload db.jobs hkeyed, ← hjobs]
  have h2' : UpdatePipelineStageRun fuel2 now2 res1.db (some (requestAfter db obj))
      = some (.ok res2) := by
    rw [hreq]
    exact h2
  obtain ⟨hs, hr, hj, -, hid, hpid, hrun⟩ :=
    UpdatePipelineStageRun_replay fuel1 now1 fuel2 now2 db obj payload res1 res2
      hstatus hjobs h1 h2'
  exact ⟨hs, hr, hj, hid, hpid, hrun⟩

theorem UpdatePipelineStageRun_idempotent_witness :
    (∃ res1 res2,
      UpdatePipelineStageRun 3 9 sampleDB (some sampleUpdate) = some (.ok res1)
      ∧ UpdatePipelineStageRun 4 10 res1.db (some sampleUpdate) = some (.ok res2)
      ∧ res1.stageRun.Status = PipelineStatusOK
      ∧ res1.pipelineRun.Status = PipelineStatusDoing
      ∧ res2.stageRun.Status = res1.stageRun.Status
      ∧ res2.pipelineRun.Status = res1.pipelineRun.Status)
    ∧ (∃ res1 res2,
      UpdatePipelineStageRun 3 9 sampleDB (some sampleWaitUpdate) = some (.ok res1)
      ∧ UpdatePipelineStageRun 4 10 res1.db (some sampleWaitUpdate) = some (.ok res2)
      ∧ res1.stageRun.Status = PipelineStatusWait
      ∧ res1.pipelineRun.Status = PipelineStatusWait
      ∧ res2.stageRun.Status = res1.stageRun.Status
      ∧ res2.pipelineRun.Status = res1.pipelineRun.Status) := by
  refine ⟨⟨_, _, rfl, rfl, rfl, rfl, ?_, ?_⟩, ⟨_, _, rfl, rfl, rfl, rfl, ?_, ?_⟩⟩
  · exact (UpdatePipelineStageRun_idempotent 3 9 4 10 sampleDB sampleUpdate _ _ _
      rfl rfl (by decide) rfl rfl).1
  · exact (UpdatePipelineStageRun_idempotent 3 9 4 10 sampleDB sampleUpdate _ _ _
      rfl rfl (by decide) rfl rfl).2.1
  · exact (UpdatePipelineStageRun_idempotent 3 9 4 10 sampleDB sampleWaitUpdate _ _ _
      rfl rfl (by decide) rfl rfl).1
  · exact (UpdatePipelineStageRun_idempotent 3 9 4 10 sampleDB sampleWaitUpdate _ _ _
      rfl rfl (by decide) rfl rfl).2.1

/-- C11, as stated, fails: on the sample store the request `sampleNewJobUpdate`,
with a job payload and no explicit status, succeeds twice in a row with no
change in between, and the stage status is OK after the first call and Doing
after the second. The payload holds a job without a key and an OK job under
the key the store assigns next: the first call creates the former under that
key and overwrites it with the latter, the second call creates a further
waiting job. -/
theorem UpdatePipelineStageRun_same_request_differs :
    ∃ res1 res2,
      sampleNewJobUpdate.StageRunStatus = ""
      ∧ sampleNewJobUpdate.StageRunJobs.isSome = true
      ∧ UpdatePipelineStageRun 3 9 sampleDB (some sampleNewJobUpdate) = some (.ok res1)
      ∧ UpdatePipelineStageRun 4 10 res1.db (some sampleNewJobUpdate) = some (.ok res2)
      ∧ res1.db.jobs.length = 4 ∧ res2.db.jobs.length = 5
      ∧ res1.stageRun.Status = PipelineStatusOK
      ∧ res2.stageRun.Status = PipelineStatusDoing
      ∧ res2.stageRun.Status ≠ res1.stageRun.Status :=
  ⟨_, _, rfl, rfl, rfl, rfl, rfl, rfl, rfl, rfl, by decide⟩

end Kubespace
